import Mathlib

/-! factomd: Signature Block and Signature-Timeout message

A shallow embedding of

* `common/factoid/signatureblock.go` (`SignatureBlock` and its methods), and
* `common/messages/signatureTimeout.go` (`SignatureTimeout` and its methods),

and a model of the Directory Block Header default, followed by theorems about
them.

Conventions of the embedding.

* A Go byte slice is a `List Byte`; a nil and an empty byte slice are both `[]`
  (the code only ever takes `len` of them or indexes them).
* The slice field `SignatureBlock.Signatures` is an `Option (List _)`:
  `none` is the nil slice, `some []` an allocated slice of length 0.  The code
  tests this field against nil, so the two are kept apart.
* A Go interface value (`interfaces.ISignature`, `interfaces.Timestamp`,
  `interfaces.IFullSignature`) is an `Option`: `none` is the nil interface.
* A method with a pointer receiver takes the pointee and returns the updated
  pointee; a method with a value receiver works on a copy, so the caller's
  value is returned unchanged.
* A call that can raise a Go run-time panic (index out of range, method call on
  a nil interface, nil pointer dereference) returns an `Outcome`, whose third
  alternative records the panic.
* Receivers of pointer-receiver methods are non-nil, except in
  `SignatureBlock.IsSameAs`, which tests its receiver against nil.
* The timing calls at the head of each method (`callTime`, `defer
  ....Observe(...)`) do not touch the receiver or the results and are left out.
* The concrete types `factoid.FactoidSignature`, `primitives.Timestamp`,
  `primitives.Signature` and the constant `constants.SIGNATURE_TIMEOUT_MSG` are
  not part of the sources at hand.  Their operations are parameters
  (`SignatureOps`, `TimestampOps`, `Primitives`); every general theorem holds
  for all of them.  The same goes for the helper `SignSignable` that `Sign`
  calls.
-/

namespace Factomd

/-- One byte. -/
abbrev Byte := Fin 256

/-- A Go `[]byte`. -/
abbrev Bytes := List Byte

/-- The `error` values the two files produce or pass on. -/
inductive Error where
  /-- `fmt.Errorf("Invalid Message type")` (signatureTimeout.go:108). -/
  | invalidMessageType
  /-- `fmt.Errorf("Error unmarshalling: %v", r)` (signatureTimeout.go:103). -/
  | recovered
  /-- `fmt.Errorf("Signature failed to Marshal in RCD_1")` (signatureblock.go:114). -/
  | signatureMarshal
  /-- `fmt.Errorf("Failure to unmarshal Signature")` (signatureblock.go:149). -/
  | signatureUnmarshal
  /-- An error produced by a codec that is a parameter of the embedding. -/
  | inner (code : Nat)
  deriving DecidableEq, Repr

/-- Result of a call: a value, a returned `error`, or a run-time panic. -/
inductive Outcome (α : Type) where
  | ok (a : α)
  | error (e : Error)
  | panicked
  deriving DecidableEq, Repr

/-- Operations of a signature type (`interfaces.ISignature`, implemented by
`factoid.FactoidSignature`; `interfaces.IFullSignature`, implemented by
`primitives.Signature`).  `fresh` is the value `new(...)` allocates;
`UnmarshalBinaryData recv data` returns the receiver as the decoder leaves it
together with the remainder, an error, or a panic. -/
structure SignatureOps (S : Type) where
  fresh : S
  IsSameAs : S → Option S → Bool
  MarshalBinary : S → Outcome Bytes
  UnmarshalBinaryData : S → Bytes → S × Outcome Bytes

/-- Operations of `interfaces.Timestamp`, implemented by `primitives.Timestamp`. -/
structure TimestampOps (T : Type) where
  fresh : T
  GetTimeMilli : T → Int
  MarshalBinary : T → Outcome Bytes
  UnmarshalBinaryData : T → Bytes → T × Outcome Bytes

/-! ## `common/factoid/signatureblock.go` -/

/-- `type SignatureBlock struct { Signatures []interfaces.ISignature }`. -/
structure SignatureBlock (S : Type) where
  Signatures : Option (List (Option S))
  deriving DecidableEq, Repr

/-- The elements of a Go slice, nil or not (what `len`, `range` and indexing see). -/
def elems {α : Type} : Option (List α) → List α
  | none => []
  | some l => l

namespace SignatureBlock

variable {S : Type}

/-- `new(SignatureBlock)`: the zero value, whose slice is nil. -/
def new : SignatureBlock S := ⟨none⟩

/-- `func (s *SignatureBlock) AddSignature(sig interfaces.ISignature)`:
`s.Signatures[0] = sig` when `len(s.Signatures) > 0`, else
`s.Signatures = append(s.Signatures, sig)`. -/
def AddSignature (s : SignatureBlock S) (sig : Option S) : SignatureBlock S :=
  match elems s.Signatures with
  | _ :: rest => ⟨some (sig :: rest)⟩
  | [] => ⟨some [sig]⟩

/-- `func (s SignatureBlock) GetSignature(index int) interfaces.ISignature`:
nil when `len(s.Signatures) <= index`, else `s.Signatures[index]`, which
panics for a negative index. -/
def GetSignature (s : SignatureBlock S) (index : Int) : Outcome (Option S) :=
  if ((elems s.Signatures).length : Int) ≤ index then .ok none
  else if index < 0 then .panicked
  else
    match (elems s.Signatures)[index.toNat]? with
    | some e => .ok e
    | none => .panicked

/-- `func (s SignatureBlock) GetSignatures() []interfaces.ISignature`: when the
field is nil, the copy `s` gets a one-element slice holding
`new(FactoidSignature)`; the slice of the copy is returned. -/
def GetSignatures (ops : SignatureOps S) (s : SignatureBlock S) : List (Option S) :=
  match s.Signatures with
  | none => [some ops.fresh]
  | some l => l

/-- The loop `for i := range b.Signatures { if b.Signatures[i].IsSameAs(sigs[i]) == false { return false } }`
followed by `return true`. -/
def sameLoop (ops : SignatureOps S) : List (Option S) → List (Option S) → Outcome Bool
  | [], _ => .ok true
  | none :: _, _ => .panicked
  | some _ :: _, [] => .panicked
  | some x :: xs, y :: ys =>
    if ops.IsSameAs x y = false then .ok false else sameLoop ops xs ys

/-- `func (b *SignatureBlock) IsSameAs(s interfaces.ISignatureBlock) bool`.
The receiver is a pointer that may be nil, the comparand an interface that may
be nil. -/
def IsSameAs (ops : SignatureOps S) (b : Option (SignatureBlock S))
    (s : Option (SignatureBlock S)) : Outcome Bool :=
  match s with
  | none => .ok b.isNone
  | some sb =>
    let sigs := GetSignatures ops sb
    match b with
    | none => .panicked
    | some bb =>
      if (elems bb.Signatures).length ≠ sigs.length then .ok false
      else sameLoop ops (elems bb.Signatures) sigs

/-- The loop of `MarshalBinary`: each signature's encoding is written to the
buffer `out`; a failing element aborts with the fixed error. -/
def marshalLoop (ops : SignatureOps S) : List (Option S) → Bytes → Outcome Bytes
  | [], out => .ok out
  | none :: _, _ => .panicked
  | some sig :: rest, out =>
    match ops.MarshalBinary sig with
    | .ok data => marshalLoop ops rest (out ++ data)
    | .error _ => .error .signatureMarshal
    | .panicked => .panicked

/-- `func (a SignatureBlock) MarshalBinary() ([]byte, error)`. -/
def MarshalBinary (ops : SignatureOps S) (a : SignatureBlock S) : Outcome Bytes :=
  marshalLoop ops (GetSignatures ops a) []

/-- `func (s *SignatureBlock) UnmarshalBinaryData(data []byte) (newData []byte, err error)`:
the field is first replaced by a one-element slice holding
`new(FactoidSignature)`, which then decodes `data`.  The first component is
the receiver after the call. -/
def UnmarshalBinaryData (ops : SignatureOps S) (_s : SignatureBlock S) (data : Bytes) :
    SignatureBlock S × Outcome Bytes :=
  let r := ops.UnmarshalBinaryData ops.fresh data
  let s1 : SignatureBlock S := ⟨some [some r.1]⟩
  match r.2 with
  | .ok rest => (s1, .ok rest)
  | .error _ => (s1, .error .signatureUnmarshal)
  | .panicked => (s1, .panicked)

/-- `func (b SignatureBlock) UnmarshalBinary(data []byte) error`: a value
receiver, so `b.UnmarshalBinaryData(data)` runs on the copy `b`; the first
component is the caller's block after the call, the second the returned
`error` (`none` for nil). -/
def UnmarshalBinary (ops : SignatureOps S) (b : SignatureBlock S) (data : Bytes) :
    SignatureBlock S × Outcome (Option Error) :=
  match (UnmarshalBinaryData ops b data).2 with
  | .ok _ => (b, .ok none)
  | .error e => (b, .ok (some e))
  | .panicked => (b, .panicked)

end SignatureBlock

/-! ## `common/messages/signatureTimeout.go` -/

/-- What `SignatureTimeout` uses and the sources at hand do not contain: the
type tag `constants.SIGNATURE_TIMEOUT_MSG`, the operations of
`primitives.Timestamp` and of `primitives.Signature`, and the digest function
`primitives.Sha`. -/
structure Primitives (T F : Type) where
  SIGNATURE_TIMEOUT_MSG : Byte
  ts : TimestampOps T
  sig : SignatureOps F
  Sha : Bytes → Bytes

/-- `type SignatureTimeout struct { MessageBase; Timestamp; Signature; hash }`.
Of the embedded `MessageBase` only the field the file touches, `MsgHash`, is
kept.  A digest (`interfaces.IHash`) is its bytes. -/
structure SignatureTimeout (T F : Type) where
  MsgHash : Option Bytes
  Timestamp : Option T
  Signature : Option F
  hash : Option Bytes
  deriving DecidableEq, Repr

/-- What `UnmarshalBinaryData` leaves behind: the receiver after the call and
the two named results `newData` and `err` (`none` for a nil error). -/
structure Unmarshalled (M : Type) where
  receiver : M
  newData : Bytes
  err : Option Error
  deriving DecidableEq, Repr

namespace SignatureTimeout

variable {T F : Type}

/-- `new(SignatureTimeout)`: every field nil. -/
def new : SignatureTimeout T F := ⟨none, none, none, none⟩

/-- `func (m *SignatureTimeout) Type() byte`. -/
def «Type» (P : Primitives T F) (_m : SignatureTimeout T F) : Byte :=
  P.SIGNATURE_TIMEOUT_MSG

/-- `func (m *SignatureTimeout) GetSignature() interfaces.IFullSignature`. -/
def GetSignature (m : SignatureTimeout T F) : Option F := m.Signature

/-- `func (m *SignatureTimeout) GetTimestamp() interfaces.Timestamp`. -/
def GetTimestamp (m : SignatureTimeout T F) : Option T := m.Timestamp

/-- `func (a *SignatureTimeout) IsSameAs(b *SignatureTimeout) bool`.  Calling
`GetTimeMilli` on a nil `Timestamp` panics. -/
def IsSameAs (P : Primitives T F) (a : SignatureTimeout T F)
    (b : Option (SignatureTimeout T F)) : Outcome Bool :=
  match b with
  | none => .ok false
  | some b =>
    match a.Timestamp, b.Timestamp with
    | some ta, some tb =>
      if P.ts.GetTimeMilli ta ≠ P.ts.GetTimeMilli tb then .ok false
      else if a.Signature.isNone ∧ b.Signature.isSome then .ok false
      else
        match a.Signature with
        | some sa => if P.sig.IsSameAs sa b.Signature = false then .ok false else .ok true
        | none => .ok true
    | _, _ => .panicked

/-- The part of `UnmarshalBinaryData` after the timestamp has been decoded
(signatureTimeout.go:118-126); `m` already holds the decoded timestamp and
`newData` is what the timestamp decoder returned. -/
def unmarshalSignature (P : Primitives T F) (m : SignatureTimeout T F) (newData : Bytes) :
    Unmarshalled (SignatureTimeout T F) :=
  if newData.length > 0 then
    let r := P.sig.UnmarshalBinaryData P.sig.fresh newData
    let m2 : SignatureTimeout T F := { m with Signature := some r.1 }
    match r.2 with
    | .ok rest => ⟨m2, rest, none⟩
    | .error e => ⟨m2, [], some e⟩
    | .panicked => ⟨m2, newData, some .recovered⟩
  else ⟨m, newData, none⟩

/-- `func (m *SignatureTimeout) UnmarshalBinaryData(data []byte) (newData []byte, err error)`.
A panic anywhere in the body is caught by the deferred `recover`, which sets
`err` and leaves the named result `newData` at its last assigned value:
`newData[0]` on an empty input panics with `newData = data`; a panicking
sub-decoder leaves `newData` at the slice it was handed. -/
def UnmarshalBinaryData (P : Primitives T F) (m : SignatureTimeout T F) (data : Bytes) :
    Unmarshalled (SignatureTimeout T F) :=
  match data with
  | [] => ⟨m, data, some .recovered⟩
  | b0 :: tail =>
    if b0 ≠ «Type» P m then ⟨m, [], some .invalidMessageType⟩
    else
      let r := P.ts.UnmarshalBinaryData P.ts.fresh tail
      let m1 : SignatureTimeout T F := { m with Timestamp := some r.1 }
      match r.2 with
      | .panicked => ⟨m1, tail, some .recovered⟩
      | .error e => ⟨m1, [], some e⟩
      | .ok rest => unmarshalSignature P m1 rest

/-- `func (m *SignatureTimeout) UnmarshalBinary(data []byte) error`: the
receiver after the call and the returned error. -/
def UnmarshalBinary (P : Primitives T F) (m : SignatureTimeout T F) (data : Bytes) :
    SignatureTimeout T F × Option Error :=
  let r := UnmarshalBinaryData P m data
  (r.receiver, r.err)

/-- `func (m *SignatureTimeout) MarshalForSignature() (data []byte, err error)`:
the tag byte, then the timestamp's encoding. -/
def MarshalForSignature (P : Primitives T F) (m : SignatureTimeout T F) : Outcome Bytes :=
  match m.Timestamp with
  | none => .panicked
  | some t =>
    match P.ts.MarshalBinary t with
    | .ok d => .ok ([«Type» P m] ++ d)
    | .error e => .error e
    | .panicked => .panicked

/-- `func (m *SignatureTimeout) MarshalBinary() (data []byte, err error)`. -/
def MarshalBinary (P : Primitives T F) (m : SignatureTimeout T F) : Outcome Bytes :=
  match MarshalForSignature P m with
  | .error e => .error e
  | .panicked => .panicked
  | .ok resp =>
    match GetSignature m with
    | some sig =>
      match P.sig.MarshalBinary sig with
      | .ok sigBytes => .ok (resp ++ sigBytes)
      | .error e => .error e
      | .panicked => .panicked
    | none => .ok resp

end SignatureTimeout

/-! ## Reference codecs

Concrete codecs to evaluate the definitions at concrete inputs. -/

/-- Big-endian encoding of `n` in `w` bytes (the low `8 * w` bits of `n`). -/
def bigEndian : Nat → Nat → Bytes
  | 0, _ => []
  | w + 1, n => bigEndian w (n / 256) ++ [⟨n % 256, Nat.mod_lt n (by decide)⟩]

/-- The number a big-endian byte string denotes. -/
def fromBigEndian (bs : Bytes) : Nat :=
  bs.foldl (fun acc b => acc * 256 + b.val) 0

/-- Modelled from the spec: `primitives.Timestamp`, absent from the sources at
hand.  A timestamp is a number of milliseconds; on the wire it takes 6 bytes
(spec §6, `timestamp:6 bytes`), written big-endian.  An input shorter than 6
bytes is a decoding error, and the receiver is then left as it was. -/
def refTimestamp : TimestampOps Nat where
  fresh := 0
  GetTimeMilli t := (t : Int)
  MarshalBinary t := .ok (bigEndian 6 t)
  UnmarshalBinaryData recv data :=
    if data.length < 6 then (recv, .error (.inner 1))
    else (fromBigEndian (data.take 6), .ok (data.drop 6))

/-- Modelled from the spec: a signature type (`factoid.FactoidSignature`,
`primitives.Signature`), absent from the sources at hand.  A signature is a
byte string that is `n` bytes long on the wire (spec §6, `signature bytes`);
two signatures are the same when their bytes are.  An input shorter than `n`
bytes is a decoding error, and the receiver is then left as it was. -/
def refSignature (n : Nat) : SignatureOps Bytes where
  fresh := List.replicate n 0
  IsSameAs s other :=
    match other with
    | none => false
    | some o => decide (s = o)
  MarshalBinary s := .ok s
  UnmarshalBinaryData recv data :=
    if data.length < n then (recv, .error (.inner 2))
    else (data.take n, .ok (data.drop n))

/-- Modelled from the spec: the primitives `SignatureTimeout` uses, absent from
the sources at hand: a type tag (the general theorems hold for every value of
it), the 6-byte timestamp, a 4-byte signature and a digest function (here the
identity). -/
def refPrimitives : Primitives Nat Bytes where
  SIGNATURE_TIMEOUT_MSG := 13
  ts := refTimestamp
  sig := refSignature 4
  Sha := id

/-! ## Well-formed messages

`SignatureTimeout` relies on the timestamp and signature codecs to read back
what they wrote.  The predicates below say so for one value; they are the
hypotheses of the round-trip theorems. -/

/-- The timestamp codec reads back what it wrote for `t`: `t` has an encoding
`d`, and decoding `d` followed by any tail into a fresh timestamp succeeds,
returns the tail and yields the same time in milliseconds. -/
def TimestampRoundTrips {T F : Type} (P : Primitives T F) (t : T) : Prop :=
  ∃ d, P.ts.MarshalBinary t = .ok d ∧
    ∀ rest, (P.ts.UnmarshalBinaryData P.ts.fresh (d ++ rest)).2 = .ok rest ∧
      P.ts.GetTimeMilli (P.ts.UnmarshalBinaryData P.ts.fresh (d ++ rest)).1
        = P.ts.GetTimeMilli t

/-- The signature codec reads back what it wrote for `s`: `s` has a non-empty
encoding `d`, and decoding `d` followed by any tail into a fresh signature
succeeds, returns the tail and yields a signature that is the same as `s`, in
both directions. -/
def SignatureRoundTrips {T F : Type} (P : Primitives T F) (s : F) : Prop :=
  ∃ d, d ≠ [] ∧ P.sig.MarshalBinary s = .ok d ∧
    ∀ rest, (P.sig.UnmarshalBinaryData P.sig.fresh (d ++ rest)).2 = .ok rest ∧
      P.sig.IsSameAs (P.sig.UnmarshalBinaryData P.sig.fresh (d ++ rest)).1 (some s) = true ∧
      P.sig.IsSameAs s (some (P.sig.UnmarshalBinaryData P.sig.fresh (d ++ rest)).1) = true

/-- A well-formed `SignatureTimeout`: its timestamp is set and round-trips, and
so does its signature when one is attached. -/
def WellFormed {T F : Type} (P : Primitives T F) (x : SignatureTimeout T F) : Prop :=
  (∃ t, x.Timestamp = some t ∧ TimestampRoundTrips P t) ∧
  (∀ s, x.Signature = some s → SignatureRoundTrips P s)

/-! ## `signatureTimeout.go`: the deferred `recover`, hashes, signing, execution -/

/-- Where the body of `SignatureTimeout.UnmarshalBinaryData` stops: the
receiver and the named results `newData` and `err` at that point, and whether
it stopped by a panic (`panicking = true`) or by a `return`. -/
structure BodyExit (M : Type) where
  receiver : M
  newData : Bytes
  err : Option Error
  panicking : Bool
  deriving DecidableEq, Repr

/-- The deferred function of `UnmarshalBinaryData` (signatureTimeout.go:101-105):
`if r := recover(); r != nil { err = fmt.Errorf("Error unmarshalling: %v", r) }`.
A panic is stopped and only `err` is overwritten. -/
def deferredRecover {M : Type} (x : BodyExit M) : Unmarshalled M :=
  if x.panicking then ⟨x.receiver, x.newData, some .recovered⟩
  else ⟨x.receiver, x.newData, x.err⟩

namespace SignatureTimeout

variable {T F : Type}

/-- The body of `UnmarshalBinaryData` (signatureTimeout.go:106-126) without
the deferred `recover`: `newData[0]` panics on an empty input, and a panic of
a sub-decoder goes through. -/
def unmarshalBody (P : Primitives T F) (m : SignatureTimeout T F) (data : Bytes) :
    BodyExit (SignatureTimeout T F) :=
  match data with
  | [] => ⟨m, data, none, true⟩
  | b0 :: tail =>
    if b0 ≠ «Type» P m then ⟨m, [], some .invalidMessageType, false⟩
    else
      let r := P.ts.UnmarshalBinaryData P.ts.fresh tail
      let m1 : SignatureTimeout T F := { m with Timestamp := some r.1 }
      match r.2 with
      | .panicked => ⟨m1, tail, none, true⟩
      | .error e => ⟨m1, [], some e, false⟩
      | .ok rest =>
        if rest.length > 0 then
          let r2 := P.sig.UnmarshalBinaryData P.sig.fresh rest
          let m2 : SignatureTimeout T F := { m1 with Signature := some r2.1 }
          match r2.2 with
          | .ok rest2 => ⟨m2, rest2, none, false⟩
          | .error e => ⟨m2, [], some e, false⟩
          | .panicked => ⟨m2, rest, none, true⟩
        else ⟨m1, rest, none, false⟩

/-- `func (m *SignatureTimeout) GetHash() interfaces.IHash`: the cached `hash`
when there is one; else the digest of `MarshalForSignature`, which is cached.
An error of `MarshalForSignature` is turned into a panic (line 66). -/
def GetHash (P : Primitives T F) (m : SignatureTimeout T F) :
    SignatureTimeout T F × Outcome (Option Bytes) :=
  match m.hash with
  | some h => (m, .ok (some h))
  | none =>
    match MarshalForSignature P m with
    | .ok data => ({ m with hash := some (P.Sha data) }, .ok (some (P.Sha data)))
    | .error _ => (m, .panicked)
    | .panicked => (m, .panicked)

/-- `func (m *SignatureTimeout) GetMsgHash() interfaces.IHash`: the cached
`MsgHash` when there is one; else the digest of `MarshalBinary`, which is
cached.  An error of `MarshalBinary` makes it return nil, caching nothing. -/
def GetMsgHash (P : Primitives T F) (m : SignatureTimeout T F) :
    SignatureTimeout T F × Outcome (Option Bytes) :=
  match m.MsgHash with
  | some h => (m, .ok (some h))
  | none =>
    match MarshalBinary P m with
    | .ok data => ({ m with MsgHash := some (P.Sha data) }, .ok (some (P.Sha data)))
    | .error _ => (m, .ok none)
    | .panicked => (m, .panicked)

/-- `func (m *SignatureTimeout) GetRepeatHash() interfaces.IHash`: `return m.GetMsgHash()`. -/
def GetRepeatHash (P : Primitives T F) (m : SignatureTimeout T F) :
    SignatureTimeout T F × Outcome (Option Bytes) :=
  GetMsgHash P m

/-- `func (m *SignatureTimeout) Sign(key interfaces.Signer) error`.  The helper
`SignSignable(m, key)`, which is not in the sources at hand, is the parameter
`signSignable`; it returns a signature or an error and is taken not to modify
`m`.  On success the signature is stored; the returned error is `none` for nil. -/
def Sign {K : Type} (signSignable : SignatureTimeout T F → K → Outcome (Option F))
    (m : SignatureTimeout T F) (key : K) : SignatureTimeout T F × Outcome (Option Error) :=
  match signSignable m key with
  | .ok signature => ({ m with Signature := signature }, .ok none)
  | .error e => (m, .ok (some e))
  | .panicked => (m, .panicked)

/-- `func (m *SignatureTimeout) Validate(state interfaces.IState) int { return 0 }`. -/
def Validate {St : Type} (_m : SignatureTimeout T F) (_state : St) : Int := 0

/-- `func (m *SignatureTimeout) Process(uint32, interfaces.IState) bool { return true }`:
the message and the state after the call, and the result. -/
def Process {St : Type} (m : SignatureTimeout T F) (_dbheight : Nat) (state : St) :
    (SignatureTimeout T F × St) × Bool :=
  ((m, state), true)

/-- `func (m *SignatureTimeout) ComputeVMIndex(state interfaces.IState) {}`:
the message and the state after the call. -/
def ComputeVMIndex {St : Type} (m : SignatureTimeout T F) (state : St) :
    SignatureTimeout T F × St :=
  (m, state)

/-- `func (m *SignatureTimeout) LeaderExecute(state interfaces.IState) {}`:
the message and the state after the call. -/
def LeaderExecute {St : Type} (m : SignatureTimeout T F) (state : St) :
    SignatureTimeout T F × St :=
  (m, state)

/-- `func (m *SignatureTimeout) FollowerExecute(interfaces.IState) {}`:
the message and the state after the call. -/
def FollowerExecute {St : Type} (m : SignatureTimeout T F) (state : St) :
    SignatureTimeout T F × St :=
  (m, state)

end SignatureTimeout

/-- Modelled from the spec: the helper `SignSignable` and a signer, absent from
the sources at hand.  The signature covers the `MarshalForSignature` output
(spec §3: the signature hash is over the fields that are signed); here it is
the 4-byte big-endian sum of the key and the signed bytes read as numbers. -/
def refSignSignable (m : SignatureTimeout Nat Bytes) (key : Nat) : Outcome (Option Bytes) :=
  match SignatureTimeout.MarshalForSignature refPrimitives m with
  | .ok toSign => .ok (some (bigEndian 4 (key + fromBigEndian toSign)))
  | .error e => .error e
  | .panicked => .panicked

/-- The signature codec `ops` reads back what it wrote for `s`: `s` has an
encoding, and decoding that encoding into a fresh signature succeeds, consumes
all of it and yields a signature that is the same as `s`, in both directions. -/
def SignatureReadsBack {S : Type} (ops : SignatureOps S) (s : S) : Prop :=
  ∃ d, ops.MarshalBinary s = .ok d ∧
    (ops.UnmarshalBinaryData ops.fresh d).2 = .ok [] ∧
    ops.IsSameAs (ops.UnmarshalBinaryData ops.fresh d).1 (some s) = true ∧
    ops.IsSameAs s (some (ops.UnmarshalBinaryData ops.fresh d).1) = true

/-! ## Directory Block Header

`common/directoryBlock/directoryBlockHeader.go` is not among the sources at
hand; only its test file is.  The header is modelled from the specification
(§3, §4.3). -/

/-- Modelled from the spec: the zero digest; a digest is a fixed-length
(32-byte) value (§3), absent from the sources at hand (`primitives.Hash`). -/
def zeroDigest : Bytes := List.replicate 32 0

/-- Modelled from the spec: the zero-value check of a digest (§3, `IsZero`),
absent from the sources at hand. -/
def IsZero (d : Bytes) : Bool := decide (d = zeroDigest)

/-- Modelled from the spec: the Directory Block Header (§3), absent from the
sources at hand: version (byte), network identifier (32-bit), the three
digests, timestamp, height and entry count.  A digest field that has not been
set is `none`. -/
structure DBlockHeader where
  Version : Nat
  NetworkID : Nat
  BodyMR : Option Bytes
  PrevKeyMR : Option Bytes
  PrevFullHash : Option Bytes
  Timestamp : Nat
  DBHeight : Nat
  BlockCount : Nat
  deriving DecidableEq, Repr

namespace DBlockHeader

/-- Modelled from the spec: `new(DBlockHeader)`, the header "constructed
empty" (§3), absent from the sources at hand. -/
def new : DBlockHeader := ⟨0, 0, none, none, none, 0, 0, 0⟩

/-- Modelled from the spec: `Init()`, absent from the sources at hand, "sets
all Merkle/hash fields to the zero digest and all numeric fields to zero"
(§4.3). -/
def Init (_h : DBlockHeader) : DBlockHeader :=
  ⟨0, 0, some zeroDigest, some zeroDigest, some zeroDigest, 0, 0, 0⟩

/-- Modelled from the spec: the accessor `GetBodyMR` (§4.3, "pure accessors"),
absent from the sources at hand. -/
def GetBodyMR (h : DBlockHeader) : Option Bytes := h.BodyMR

/-- Modelled from the spec: the accessor `GetPrevKeyMR` (§4.3), absent from the
sources at hand. -/
def GetPrevKeyMR (h : DBlockHeader) : Option Bytes := h.PrevKeyMR

/-- Modelled from the spec: the accessor `GetPrevFullHash` (§4.3), absent from
the sources at hand. -/
def GetPrevFullHash (h : DBlockHeader) : Option Bytes := h.PrevFullHash

end DBlockHeader

end Factomd

/-! ## Theorems: Signature Block -/

namespace Factomd

namespace SignatureBlock

variable {S : Type}

/-- One `AddSignature` on a block holding at most one signature leaves exactly
the added one. -/
theorem AddSignature_of_length_le_one (b : SignatureBlock S) (sig : Option S)
    (hb : (elems b.Signatures).length ≤ 1) : AddSignature b sig = ⟨some [sig]⟩ := by
  unfold AddSignature
  cases h : elems b.Signatures with
  | nil => rfl
  | cons x rest =>
    rw [h] at hb
    have hrest : rest = [] := by
      cases rest with
      | nil => rfl
      | cons y ys => simp at hb
    simp [hrest]

/-- A run of `AddSignature` calls on a block holding at most one signature
leaves exactly the last signature added. -/
theorem foldl_AddSignature_of_length_le_one (sigs : List (Option S)) (h : sigs ≠ []) :
    ∀ b : SignatureBlock S, (elems b.Signatures).length ≤ 1 →
      sigs.foldl AddSignature b = ⟨some [sigs.getLast h]⟩ := by
  induction sigs with
  | nil => exact absurd rfl h
  | cons x xs ih =>
    intro b hb
    rw [List.foldl_cons, AddSignature_of_length_le_one b x hb]
    cases xs with
    | nil => rfl
    | cons y ys =>
      have hne : y :: ys ≠ [] := List.cons_ne_nil y ys
      rw [ih hne ⟨some [x]⟩ (by simp [elems]), List.getLast_cons hne]

/-- C1: starting from a Signature Block without signatures (the zero value, or
one whose slice is allocated with length 0), any non-empty sequence of
`AddSignature` calls leaves the block with exactly one signature, the last one
added; the calls after the first replace index 0 and never append. -/
theorem AddSignature_sequence_keeps_last (b : SignatureBlock S)
    (hb : elems b.Signatures = []) (sigs : List (Option S)) (h : sigs ≠ []) :
    sigs.foldl AddSignature b = ⟨some [sigs.getLast h]⟩ :=
  foldl_AddSignature_of_length_le_one sigs h b (by simp [hb])

/-- Witness of C1: two `AddSignature` calls on `new(SignatureBlock)` leave the
second signature alone at index 0. -/
theorem AddSignature_sequence_keeps_last_witness :
    elems (new : SignatureBlock Nat).Signatures = [] ∧
      AddSignature (AddSignature (new : SignatureBlock Nat) (some 1)) (some 2)
        = ⟨some [some 2]⟩ :=
  ⟨rfl, AddSignature_sequence_keeps_last new rfl [some 1, some 2] (by simp)⟩

/-- C2, as stated, fails: a block whose slice is allocated with length 0 is not
nil, so `GetSignatures` returns that empty slice. -/
theorem GetSignatures_allocated_empty :
    GetSignatures (refSignature 4) ⟨some []⟩ = [] := rfl

/-- C2, amended: `GetSignatures` returns a one-element list holding a default
(freshly allocated) signature when the slice is nil, and the stored slice
itself otherwise; so the result is non-empty for every block whose slice is nil
or holds at least one signature. -/
theorem GetSignatures_lazy_default (ops : SignatureOps S) (s : SignatureBlock S) :
    (s.Signatures = none → GetSignatures ops s = [some ops.fresh]) ∧
    (∀ l, s.Signatures = some l → GetSignatures ops s = l) ∧
    (s.Signatures ≠ some [] → GetSignatures ops s ≠ []) := by
  obtain ⟨sl⟩ := s
  cases sl with
  | none => simp [GetSignatures]
  | some l => simp [GetSignatures]

/-- Witness of C2 amended: the zero-value block yields one default signature,
a block holding two signatures yields those two. -/
theorem GetSignatures_lazy_default_witness :
    GetSignatures (refSignature 4) ⟨none⟩ = [some [0, 0, 0, 0]] ∧
    GetSignatures (refSignature 4) ⟨some [some [1], none]⟩ = [some [1], none] :=
  ⟨(GetSignatures_lazy_default (refSignature 4) ⟨none⟩).1 rfl,
   (GetSignatures_lazy_default (refSignature 4) ⟨some [some [1], none]⟩).2.1 _ rfl⟩

/-- What `GetSignature` does at every index: the stored element inside the
range, nil at and above the length, a panic below zero. -/
theorem GetSignature_cases (s : SignatureBlock S) (index : Int) :
    (∀ e, 0 ≤ index → (elems s.Signatures)[index.toNat]? = some e →
      GetSignature s index = .ok e) ∧
    (((elems s.Signatures).length : Int) ≤ index → GetSignature s index = .ok none) ∧
    (index < 0 → GetSignature s index = .panicked) := by
  refine ⟨?_, ?_, ?_⟩
  · intro e h0 he
    have hlt : index.toNat < (elems s.Signatures).length := by
      by_contra hcon
      rw [List.getElem?_eq_none (Nat.le_of_not_lt hcon)] at he
      exact Option.noConfusion he
    have h1 : ¬ ((elems s.Signatures).length : Int) ≤ index := by omega
    have h2 : ¬ index < 0 := by omega
    simp only [GetSignature, h1, h2, if_false, he]
  · intro h
    simp only [GetSignature, h, if_true]
  · intro h
    have h1 : ¬ ((elems s.Signatures).length : Int) ≤ index := by omega
    simp only [GetSignature, h1, h, if_false, if_true]

/-- C3, the failing input: on a block holding one signature `GetSignature(-1)`
passes the guard `len(s.Signatures) <= index` and indexes the slice at -1,
which panics; the claim says it returns the not-found sentinel. -/
theorem GetSignature_negative_index_panics :
    GetSignature (⟨some [some 7]⟩ : SignatureBlock Nat) (-1) = .panicked ∧
    GetSignature (new : SignatureBlock Nat) (-1) = .panicked ∧
    GetSignature (⟨some [some 7]⟩ : SignatureBlock Nat) 0 = .ok (some 7) ∧
    GetSignature (⟨some [some 7]⟩ : SignatureBlock Nat) 1 = .ok none := by
  refine ⟨?_, ?_, ?_, ?_⟩ <;> decide

/-- C4, the failing input: the zero-value block is not `IsSameAs` itself.  The
receiver's raw slice has length 0 while the comparand's `GetSignatures()` has
length 1 (the lazily created default), so the length test fails. -/
theorem IsSameAs_zero_value_not_reflexive (ops : SignatureOps S) :
    IsSameAs ops (some new) (some new) = .ok false ∧
    IsSameAs ops (some ⟨some []⟩) (some new) = .ok false ∧
    IsSameAs ops (some new) (some ⟨some []⟩) = .ok true := by
  refine ⟨?_, ?_, ?_⟩ <;> simp [IsSameAs, new, GetSignatures, elems, sameLoop]

/-- `UnmarshalBinary` has a value receiver: the caller's block is never
changed, and the error is the one `UnmarshalBinaryData` returns. -/
theorem UnmarshalBinary_receiver_unchanged (ops : SignatureOps S) (b : SignatureBlock S)
    (data : Bytes) :
    (UnmarshalBinary ops b data).1 = b ∧
    (UnmarshalBinary ops b data).2 =
      (match (UnmarshalBinaryData ops b data).2 with
        | .ok _ => .ok none
        | .error e => .ok (some e)
        | .panicked => .panicked) := by
  unfold UnmarshalBinary
  cases (UnmarshalBinaryData ops b data).2 <;> exact ⟨rfl, rfl⟩

/-- C5, the failing input: on the zero-value block and a well-formed signature
encoding, `UnmarshalBinaryData` leaves the block holding the decoded signature,
while `UnmarshalBinary` returns a nil error and leaves the block without any
signature, because it decodes into a copy of its value receiver. -/
theorem UnmarshalBinary_decodes_into_copy :
    UnmarshalBinaryData (refSignature 4) new [1, 2, 3, 4]
      = (⟨some [some [1, 2, 3, 4]]⟩, .ok []) ∧
    UnmarshalBinary (refSignature 4) new [1, 2, 3, 4] = (⟨none⟩, .ok none) := by
  constructor <;> decide

end SignatureBlock

end Factomd

/-! ## Theorems: reference codecs -/

namespace Factomd

/-- Appending a low byte to a big-endian string. -/
theorem fromBigEndian_append_singleton (bs : Bytes) (b : Byte) :
    fromBigEndian (bs ++ [b]) = fromBigEndian bs * 256 + b.val := by
  simp [fromBigEndian, List.foldl_append]

/-- The encoding of a number in `w` bytes is `w` bytes long. -/
theorem length_bigEndian (w n : Nat) : (bigEndian w n).length = w := by
  induction w generalizing n with
  | zero => rfl
  | succ w ih => simp [bigEndian, ih]

/-- Reading back a `w`-byte big-endian encoding gives the low `8 * w` bits. -/
theorem fromBigEndian_bigEndian (w n : Nat) :
    fromBigEndian (bigEndian w n) = n % 256 ^ w := by
  induction w generalizing n with
  | zero => simp [bigEndian, fromBigEndian, Nat.mod_one]
  | succ w ih =>
    rw [bigEndian, fromBigEndian_append_singleton, ih, pow_succ, Nat.mul_comm (256 ^ w) 256,
      Nat.mod_mul]
    simp only []
    omega

/-- The reference timestamp codec reads back every timestamp below `2 ^ 48`. -/
theorem refPrimitives_timestamp_roundtrips (t : Nat) (ht : t < 2 ^ 48) :
    TimestampRoundTrips refPrimitives t := by
  refine ⟨bigEndian 6 t, rfl, fun rest => ?_⟩
  have hlen : ¬ (bigEndian 6 t ++ rest).length < 6 := by
    simp [length_bigEndian]
  have htake : (bigEndian 6 t ++ rest).take 6 = bigEndian 6 t := by
    rw [List.take_append_of_le_length (by simp [length_bigEndian])]
    exact List.take_of_length_le (by simp [length_bigEndian])
  have hdrop : (bigEndian 6 t ++ rest).drop 6 = rest := by
    have h6 : 6 = (bigEndian 6 t).length := (length_bigEndian 6 t).symm
    conv_lhs => rw [h6]
    exact List.drop_left _ _
  have hmod : t % 256 ^ 6 = t := Nat.mod_eq_of_lt (by norm_num at ht ⊢; exact ht)
  simp only [refPrimitives, refTimestamp, hlen, if_false, htake, hdrop,
    fromBigEndian_bigEndian, hmod, and_self]

/-- The reference signature codec reads back every 4-byte signature. -/
theorem refPrimitives_signature_roundtrips (s : Bytes) (hs : s.length = 4) :
    SignatureRoundTrips refPrimitives s := by
  have hne : s ≠ [] := by
    intro h
    rw [h] at hs
    exact absurd hs (by decide)
  refine ⟨s, hne, rfl, fun rest => ?_⟩
  have hlen : ¬ (s ++ rest).length < 4 := by simp [hs]
  have htake : (s ++ rest).take 4 = s := by
    rw [List.take_append_of_le_length (by simp [hs])]
    exact List.take_of_length_le (by simp [hs])
  have hdrop : (s ++ rest).drop 4 = rest := by
    conv_lhs => rw [← hs]
    exact List.drop_left _ _
  simp only [refPrimitives, refSignature, hlen, if_false, htake, hdrop, decide_True,
    and_self]

/-- Under the reference codecs a message with a timestamp below `2 ^ 48` and,
if signed, a 4-byte signature is well-formed. -/
theorem refPrimitives_wellFormed (x : SignatureTimeout Nat Bytes) (t : Nat)
    (hx : x.Timestamp = some t) (ht : t < 2 ^ 48)
    (hs : ∀ s, x.Signature = some s → s.length = 4) : WellFormed refPrimitives x :=
  ⟨⟨t, hx, refPrimitives_timestamp_roundtrips t ht⟩,
   fun s h => refPrimitives_signature_roundtrips s (hs s h)⟩

end Factomd

/-! ## Theorems: Signature-Timeout message -/

namespace Factomd

namespace SignatureTimeout

variable {T F : Type}

/-- With a timestamp that encodes to `d`, `MarshalForSignature` is the tag
followed by `d`. -/
theorem MarshalForSignature_eq (P : Primitives T F) (m : SignatureTimeout T F) (t : T)
    (d : Bytes) (ht : m.Timestamp = some t) (hd : P.ts.MarshalBinary t = .ok d) :
    MarshalForSignature P m = .ok («Type» P m :: d) := by
  simp [MarshalForSignature, ht, hd]

/-- A successful `MarshalForSignature` starts with the tag. -/
theorem MarshalForSignature_head (P : Primitives T F) (m : SignatureTimeout T F)
    (out : Bytes) (h : MarshalForSignature P m = .ok out) :
    ∃ d, out = «Type» P m :: d := by
  unfold MarshalForSignature at h
  cases ht : m.Timestamp with
  | none => simp [ht] at h
  | some t =>
    cases hd : P.ts.MarshalBinary t with
    | ok d => simp [ht, hd] at h; exact ⟨d, h.symm⟩
    | error e => simp [ht, hd] at h
    | panicked => simp [ht, hd] at h

/-- A successful `MarshalBinary` starts with the tag. -/
theorem MarshalBinary_head (P : Primitives T F) (m : SignatureTimeout T F)
    (out : Bytes) (h : MarshalBinary P m = .ok out) :
    ∃ d, out = «Type» P m :: d := by
  unfold MarshalBinary at h
  cases hr : MarshalForSignature P m with
  | error e => simp [hr] at h
  | panicked => simp [hr] at h
  | ok resp =>
    obtain ⟨d, rfl⟩ := MarshalForSignature_head P m resp hr
    cases hs : GetSignature m with
    | none => simp [hr, hs] at h; exact ⟨d, h.symm⟩
    | some sig =>
      cases hb : P.sig.MarshalBinary sig with
      | ok sigBytes => simp [hr, hs, hb] at h; exact ⟨d ++ sigBytes, h.symm⟩
      | error e => simp [hr, hs, hb] at h
      | panicked => simp [hr, hs, hb] at h

/-- C9: for a `SignatureTimeout` whose timestamp encodes to `d`,
`MarshalForSignature` returns the `Type()` tag followed by `d` and nothing
else; `MarshalBinary` returns exactly that when no signature is attached and
that followed by the signature's encoding when one is; and whatever either
returns starts with the `Type()` tag. -/
theorem MarshalBinary_layout (P : Primitives T F) (m : SignatureTimeout T F) (t : T)
    (d : Bytes) (ht : m.Timestamp = some t) (hd : P.ts.MarshalBinary t = .ok d) :
    MarshalForSignature P m = .ok («Type» P m :: d) ∧
    (m.Signature = none → MarshalBinary P m = .ok («Type» P m :: d)) ∧
    (∀ s sigBytes, m.Signature = some s → P.sig.MarshalBinary s = .ok sigBytes →
      MarshalBinary P m = .ok ((«Type» P m :: d) ++ sigBytes)) ∧
    (∀ out, MarshalForSignature P m = .ok out ∨ MarshalBinary P m = .ok out →
      out.head? = some («Type» P m)) := by
  have h1 := MarshalForSignature_eq P m t d ht hd
  refine ⟨h1, ?_, ?_, ?_⟩
  · intro hs
    simp [MarshalBinary, h1, GetSignature, hs]
  · intro s sigBytes hs hb
    simp [MarshalBinary, h1, GetSignature, hs, hb]
  · intro out ho
    rcases ho with ho | ho
    · obtain ⟨d1, rfl⟩ := MarshalForSignature_head P m out ho
      rfl
    · obtain ⟨d1, rfl⟩ := MarshalBinary_head P m out ho
      rfl

/-- Witness of C9: an unsigned message with timestamp 258 under the reference
codecs encodes to the tag and six timestamp bytes. -/
theorem MarshalBinary_layout_witness :
    MarshalForSignature refPrimitives ⟨none, some 258, none, none⟩
      = .ok [13, 0, 0, 0, 0, 1, 2] :=
  (MarshalBinary_layout refPrimitives ⟨none, some 258, none, none⟩ 258 [0, 0, 0, 0, 1, 2]
    rfl rfl).1

/-- C10: on a non-empty input whose first byte is not the `SignatureTimeout`
tag, `UnmarshalBinaryData` returns the error "Invalid Message type" and a nil
remainder, whatever follows the first byte, and `UnmarshalBinary` returns the
same error; the receiver is untouched. -/
theorem UnmarshalBinaryData_wrong_tag (P : Primitives T F) (m : SignatureTimeout T F)
    (b0 : Byte) (tail : Bytes) (h : b0 ≠ «Type» P m) :
    UnmarshalBinaryData P m (b0 :: tail) = ⟨m, [], some .invalidMessageType⟩ ∧
    UnmarshalBinary P m (b0 :: tail) = (m, some .invalidMessageType) := by
  simp [UnmarshalBinary, UnmarshalBinaryData, h]

/-- Witness of C10: tag 14 instead of 13, followed by a valid timestamp. -/
theorem UnmarshalBinaryData_wrong_tag_witness :
    (14 : Byte) ≠ «Type» refPrimitives (new : SignatureTimeout Nat Bytes) ∧
    UnmarshalBinaryData refPrimitives new [14, 0, 0, 0, 0, 1, 2]
      = ⟨new, [], some .invalidMessageType⟩ :=
  ⟨by decide,
   (UnmarshalBinaryData_wrong_tag refPrimitives new 14 [0, 0, 0, 0, 1, 2] (by decide)).1⟩

/-- The decoder on the full encoding of a well-formed message followed by a
tail `t`, when the message is signed or the tail is empty. -/
theorem roundtrip_tail (P : Primitives T F) (x : SignatureTimeout T F)
    (hx : WellFormed P x) (t : Bytes) (ht : x.Signature ≠ none ∨ t = []) :
    ∃ d y, MarshalBinary P x = .ok d ∧
      UnmarshalBinaryData P new (d ++ t) = ⟨y, t, none⟩ ∧
      IsSameAs P y (some x) = .ok true ∧ IsSameAs P x (some y) = .ok true := by
  obtain ⟨⟨ts, hts, dts, hdts, hlaw⟩, hsig⟩ := hx
  have hfs := MarshalForSignature_eq P x ts dts hts hdts
  cases hs : x.Signature with
  | none =>
    have ht0 : t = [] := by
      rcases ht with h | h
      · exact absurd hs h
      · exact h
    subst ht0
    obtain ⟨h2, hms⟩ := hlaw []
    simp only [List.append_nil] at h2 hms
    refine ⟨«Type» P x :: dts,
      ⟨none, some (P.ts.UnmarshalBinaryData P.ts.fresh dts).1, none, none⟩, ?_, ?_, ?_, ?_⟩
    · simp [MarshalBinary, hfs, GetSignature, hs]
    · simp only [UnmarshalBinaryData, List.append_nil, «Type», ne_eq, not_true_eq_false,
        if_false, h2, unmarshalSignature, List.length_nil, gt_iff_lt, lt_self_iff_false]
      rfl
    · simp [IsSameAs, new, hts, hs, hms]
    · simp [IsSameAs, new, hts, hs, hms]
  | some s =>
    obtain ⟨ds, hne, hds, hslaw⟩ := hsig s hs
    obtain ⟨h2, hms⟩ := hlaw (ds ++ t)
    obtain ⟨h3, hsame1, hsame2⟩ := hslaw t
    have hlen : (ds ++ t).length > 0 := by
      cases ds with
      | nil => exact absurd rfl hne
      | cons a as => simp
    refine ⟨(«Type» P x :: dts) ++ ds,
      ⟨none, some (P.ts.UnmarshalBinaryData P.ts.fresh (dts ++ (ds ++ t))).1,
        some (P.sig.UnmarshalBinaryData P.sig.fresh (ds ++ t)).1, none⟩, ?_, ?_, ?_, ?_⟩
    · simp [MarshalBinary, hfs, GetSignature, hs, hds]
    · simp only [UnmarshalBinaryData, List.cons_append, List.append_assoc, «Type», ne_eq,
        not_true_eq_false, if_false, h2, unmarshalSignature, hlen, if_true, h3]
      rfl
    · simp [IsSameAs, new, hts, hs, hms, hsame1]
    · simp [IsSameAs, new, hts, hs, hms, hsame2]

/-- C7: for every well-formed `SignatureTimeout` `x` (timestamp set and read
back by its codec; signed or not, a signature having a non-empty encoding its
codec reads back), `MarshalBinary` succeeds, and unmarshalling its output into
a fresh message succeeds with an empty remainder and yields `y` with
`y.IsSameAs(x)` and `x.IsSameAs(y)`. -/
theorem Unmarshal_Marshal_IsSameAs (P : Primitives T F) (x : SignatureTimeout T F)
    (hx : WellFormed P x) :
    ∃ d y, MarshalBinary P x = .ok d ∧
      UnmarshalBinaryData P new d = ⟨y, [], none⟩ ∧
      IsSameAs P y (some x) = .ok true ∧ IsSameAs P x (some y) = .ok true := by
  obtain ⟨d, y, h1, h2, h3, h4⟩ := roundtrip_tail P x hx [] (Or.inr rfl)
  rw [List.append_nil] at h2
  exact ⟨d, y, h1, h2, h3, h4⟩

/-- Witness of C7: a signed message with timestamp 258 under the reference
codecs. -/
theorem Unmarshal_Marshal_IsSameAs_witness :
    WellFormed refPrimitives ⟨none, some 258, some [1, 2, 3, 4], none⟩ ∧
    ∃ d y, MarshalBinary refPrimitives ⟨none, some 258, some [1, 2, 3, 4], none⟩ = .ok d ∧
      UnmarshalBinaryData refPrimitives new d = ⟨y, [], none⟩ ∧
      IsSameAs refPrimitives y (some ⟨none, some 258, some [1, 2, 3, 4], none⟩) = .ok true ∧
      IsSameAs refPrimitives ⟨none, some 258, some [1, 2, 3, 4], none⟩ (some y) = .ok true :=
  have hw : WellFormed refPrimitives ⟨none, some 258, some [1, 2, 3, 4], none⟩ :=
    refPrimitives_wellFormed _ 258 rfl (by norm_num)
      (fun s h => by cases h; rfl)
  ⟨hw, Unmarshal_Marshal_IsSameAs refPrimitives _ hw⟩

/-- After the encoding of an unsigned message, a non-empty tail is never left
alone: whatever the codecs do, the decoder does not both succeed with the tail
as remainder and yield a message the original `IsSameAs`.  (It runs the
signature decoder on what follows the timestamp.) -/
theorem unsigned_tail_not_preserved (P : Primitives T F) (x : SignatureTimeout T F)
    (d t : Bytes) (hd : MarshalBinary P x = .ok d) (hs : x.Signature = none)
    (ht : t ≠ []) :
    ¬ ∃ y, UnmarshalBinaryData P new (d ++ t) = ⟨y, t, none⟩ ∧
      IsSameAs P x (some y) = .ok true := by
  rintro ⟨y, hy, hsame⟩
  obtain ⟨d1, rfl⟩ := MarshalBinary_head P x d hd
  simp only [UnmarshalBinaryData, List.cons_append, «Type», ne_eq, not_true_eq_false,
    if_false] at hy
  cases h2 : (P.ts.UnmarshalBinaryData P.ts.fresh (d1 ++ t)).2 with
  | panicked => simp [h2] at hy
  | error e => simp [h2] at hy
  | ok rest =>
    simp only [h2, unmarshalSignature] at hy
    by_cases hlen : rest.length > 0
    · simp only [hlen, if_true] at hy
      cases h3 : (P.sig.UnmarshalBinaryData P.sig.fresh rest).2 with
      | panicked => simp [h3] at hy
      | error e => simp [h3] at hy
      | ok rest2 =>
        simp only [h3] at hy
        have hysig : y.Signature.isSome = true := by
          have := congrArg (fun r => r.receiver.Signature.isSome) hy
          simpa using this.symm
        unfold IsSameAs at hsame
        cases hxt : x.Timestamp with
        | none => simp [hxt] at hsame
        | some tx =>
          cases hyt : y.Timestamp with
          | none => simp [hxt, hyt] at hsame
          | some ty =>
            simp only [hxt, hyt, hs, hysig, Option.isNone_none, and_self, if_true] at hsame
            split at hsame <;> cases hsame
    · simp only [hlen, if_false] at hy
      have hnd := congrArg (fun r => r.newData) hy
      simp only at hnd
      have : rest = [] := by
        cases rest with
        | nil => rfl
        | cons a as => simp at hlen
      exact ht (by rw [← hnd, this])

/-- C8, as stated, fails for an unsigned message followed by a tail.  Under the
reference codecs the unsigned message with timestamp 258 is well-formed and
encodes to 7 bytes; followed by the one byte `7` the decoder fails, because it
tries to read a signature from the tail; followed by five bytes it succeeds but
takes four of them as a signature, returns only the fifth as remainder, and the
original message is not the same as the result. -/
theorem UnmarshalBinaryData_unsigned_with_tail :
    WellFormed refPrimitives ⟨none, some 258, none, none⟩ ∧
    MarshalBinary refPrimitives ⟨none, some 258, none, none⟩ = .ok [13, 0, 0, 0, 0, 1, 2] ∧
    UnmarshalBinaryData refPrimitives new ([13, 0, 0, 0, 0, 1, 2] ++ [7])
      = ⟨⟨none, some 258, some [0, 0, 0, 0], none⟩, [], some (.inner 2)⟩ ∧
    UnmarshalBinaryData refPrimitives new ([13, 0, 0, 0, 0, 1, 2] ++ [9, 9, 9, 9, 5])
      = ⟨⟨none, some 258, some [9, 9, 9, 9], none⟩, [5], none⟩ ∧
    IsSameAs refPrimitives ⟨none, some 258, none, none⟩
      (some ⟨none, some 258, some [9, 9, 9, 9], none⟩) = .ok false :=
  ⟨refPrimitives_wellFormed _ 258 rfl (by norm_num) (fun s h => by cases h),
   by decide, by decide, by decide, by decide⟩

/-- C8, amended: for every well-formed `SignatureTimeout` `x` and every byte
sequence `t`, provided `x` is signed or `t` is empty,
`UnmarshalBinaryData(MarshalBinary(x) ++ t)` on a fresh message succeeds,
returns exactly `t` as the remainder and yields a message `y` with
`y.IsSameAs(x)` and `x.IsSameAs(y)`. -/
theorem UnmarshalBinaryData_leaves_tail (P : Primitives T F) (x : SignatureTimeout T F)
    (hx : WellFormed P x) (t : Bytes) (ht : x.Signature ≠ none ∨ t = []) :
    ∃ d y, MarshalBinary P x = .ok d ∧
      UnmarshalBinaryData P new (d ++ t) = ⟨y, t, none⟩ ∧
      IsSameAs P y (some x) = .ok true ∧ IsSameAs P x (some y) = .ok true :=
  roundtrip_tail P x hx t ht

/-- Witness of C8 amended: a signed message followed by the tail `[7, 8]`. -/
theorem UnmarshalBinaryData_leaves_tail_witness :
    WellFormed refPrimitives ⟨none, some 258, some [1, 2, 3, 4], none⟩ ∧
    (⟨none, some 258, some [1, 2, 3, 4], none⟩ : SignatureTimeout Nat Bytes).Signature ≠ none ∧
    ∃ d y, MarshalBinary refPrimitives ⟨none, some 258, some [1, 2, 3, 4], none⟩ = .ok d ∧
      UnmarshalBinaryData refPrimitives new (d ++ [7, 8]) = ⟨y, [7, 8], none⟩ ∧
      IsSameAs refPrimitives y (some ⟨none, some 258, some [1, 2, 3, 4], none⟩) = .ok true ∧
      IsSameAs refPrimitives ⟨none, some 258, some [1, 2, 3, 4], none⟩ (some y) = .ok true :=
  have hw : WellFormed refPrimitives ⟨none, some 258, some [1, 2, 3, 4], none⟩ :=
    refPrimitives_wellFormed _ 258 rfl (by norm_num)
      (fun s h => by cases h; rfl)
  ⟨hw, by simp, UnmarshalBinaryData_leaves_tail refPrimitives _ hw [7, 8] (Or.inl (by simp))⟩

end SignatureTimeout

end Factomd

/-! ## Theorems: failed decodes -/

namespace Factomd

/-- C6, as stated, fails.  `SignatureBlock.UnmarshalBinaryData` on the
zero-value block and an empty input returns an error and leaves the block
holding one freshly allocated signature; `SignatureTimeout.UnmarshalBinaryData`
on a message with timestamp 5 and a truncated input (tag and one byte) returns
an error and leaves the message with a freshly allocated timestamp. -/
theorem UnmarshalBinaryData_failure_overwrites :
    SignatureBlock.UnmarshalBinaryData (refSignature 4) ⟨none⟩ []
      = (⟨some [some [0, 0, 0, 0]]⟩, .error .signatureUnmarshal) ∧
    (⟨some [some [0, 0, 0, 0]]⟩ : SignatureBlock Bytes) ≠ ⟨none⟩ ∧
    SignatureTimeout.UnmarshalBinaryData refPrimitives ⟨none, some 5, none, none⟩ [13, 0]
      = ⟨⟨none, some 0, none, none⟩, [], some (.inner 1)⟩ ∧
    (⟨none, some 0, none, none⟩ : SignatureTimeout Nat Bytes) ≠ ⟨none, some 5, none, none⟩ := by
  refine ⟨?_, ?_, ?_, ?_⟩ <;> decide

/-- C6, amended: when `SignatureTimeout.UnmarshalBinaryData` returns its error
for an empty input or for a first byte that is not the type tag, the receiver
is exactly what it was before the call.  When it returns an error after the
tag and the timestamp decoder did not succeed, the receiver is what it was
except for `Timestamp`, which is a freshly allocated timestamp as its decoder
left it.  When it returns an error after the tag and the timestamp decoder
succeeded, bytes were left after the timestamp, and the receiver is what it was
except for `Timestamp`, the decoded timestamp, and `Signature`, a freshly
allocated signature as its decoder left it on those bytes.  When
`SignatureBlock.UnmarshalBinaryData` returns an error, the error is "Failure
to unmarshal Signature" and `Signatures` is a one-element list holding a
freshly allocated signature as its decoder left it. -/
theorem UnmarshalBinaryData_failure_state {S T F : Type} (P : Primitives T F)
    (ops : SignatureOps S) (m : SignatureTimeout T F) (b : SignatureBlock S) (data : Bytes) :
    (data = [] ∨ (∃ b0 tail, data = b0 :: tail ∧ b0 ≠ P.SIGNATURE_TIMEOUT_MSG) →
      (SignatureTimeout.UnmarshalBinaryData P m data).err ≠ none ∧
      (SignatureTimeout.UnmarshalBinaryData P m data).receiver = m) ∧
    (∀ tail, data = P.SIGNATURE_TIMEOUT_MSG :: tail →
      (SignatureTimeout.UnmarshalBinaryData P m data).err ≠ none →
      ((∀ rest, (P.ts.UnmarshalBinaryData P.ts.fresh tail).2 ≠ .ok rest) →
        (SignatureTimeout.UnmarshalBinaryData P m data).receiver
          = { m with Timestamp := some (P.ts.UnmarshalBinaryData P.ts.fresh tail).1 }) ∧
      (∀ rest, (P.ts.UnmarshalBinaryData P.ts.fresh tail).2 = .ok rest →
        rest ≠ [] ∧
        (SignatureTimeout.UnmarshalBinaryData P m data).receiver
          = { m with
              Timestamp := some (P.ts.UnmarshalBinaryData P.ts.fresh tail).1,
              Signature := some (P.sig.UnmarshalBinaryData P.sig.fresh rest).1 })) ∧
    (∀ e, (SignatureBlock.UnmarshalBinaryData ops b data).2 = .error e →
      e = .signatureUnmarshal ∧
      (SignatureBlock.UnmarshalBinaryData ops b data).1
        = ⟨some [some (ops.UnmarshalBinaryData ops.fresh data).1]⟩) := by
  refine ⟨?_, ?_, ?_⟩
  · rintro (h | ⟨b0, tail, h, hne⟩)
    · subst h
      simp [SignatureTimeout.UnmarshalBinaryData]
    · subst h
      simp [SignatureTimeout.UnmarshalBinaryData, SignatureTimeout.«Type», hne]
  · intro tail h herr
    subst h
    simp only [SignatureTimeout.UnmarshalBinaryData, SignatureTimeout.«Type», ne_eq,
      not_true_eq_false, if_false] at herr ⊢
    cases h2 : (P.ts.UnmarshalBinaryData P.ts.fresh tail).2 with
    | panicked => simp
    | error e => simp
    | ok rest =>
      simp only [h2, SignatureTimeout.unmarshalSignature] at herr ⊢
      refine ⟨fun hno => absurd rfl (hno rest), ?_⟩
      intro rest1 hr
      cases hr
      by_cases hlen : rest.length > 0
      · have hne : rest ≠ [] := by
          intro h0
          rw [h0] at hlen
          exact absurd hlen (by decide)
        simp only [hlen, if_true]
        cases h3 : (P.sig.UnmarshalBinaryData P.sig.fresh rest).2 with
        | panicked => exact ⟨hne, rfl⟩
        | error e => exact ⟨hne, rfl⟩
        | ok rest2 => exact ⟨hne, rfl⟩
      · simp [hlen] at herr
  · intro e he
    unfold SignatureBlock.UnmarshalBinaryData at he ⊢
    cases h2 : (ops.UnmarshalBinaryData ops.fresh data).2 with
    | panicked => simp [h2] at he
    | error e2 =>
      simp only [h2, Prod.mk.injEq, Outcome.error.injEq] at he ⊢
      exact ⟨he.symm, trivial⟩
    | ok rest => simp [h2] at he

/-- Witness of C6 amended: a wrong tag leaves the message alone; a truncated
timestamp after the right tag replaces `Timestamp` and keeps the prior
`Signature`; a truncated signature after a full timestamp replaces both; a
truncated signature replaces the block's list. -/
theorem UnmarshalBinaryData_failure_state_witness :
    (SignatureTimeout.UnmarshalBinaryData refPrimitives
        ⟨none, some 5, some [8, 8, 8, 8], none⟩ [14, 0]).receiver
      = ⟨none, some 5, some [8, 8, 8, 8], none⟩ ∧
    (SignatureTimeout.UnmarshalBinaryData refPrimitives
        ⟨none, some 5, some [8, 8, 8, 8], none⟩ [13, 0]).receiver
      = ⟨none, some 0, some [8, 8, 8, 8], none⟩ ∧
    (SignatureTimeout.UnmarshalBinaryData refPrimitives
        ⟨none, some 5, some [8, 8, 8, 8], none⟩ [13, 0, 0, 0, 0, 1, 2, 7]).receiver
      = ⟨none, some 258, some [0, 0, 0, 0], none⟩ ∧
    (SignatureBlock.UnmarshalBinaryData (refSignature 4) ⟨none⟩ [1]).1
      = ⟨some [some [0, 0, 0, 0]]⟩ :=
  ⟨((UnmarshalBinaryData_failure_state refPrimitives (refSignature 4)
      ⟨none, some 5, some [8, 8, 8, 8], none⟩ ⟨none⟩ [14, 0]).1
      (Or.inr ⟨14, [0], rfl, by decide⟩)).2,
   ((UnmarshalBinaryData_failure_state refPrimitives (refSignature 4)
      ⟨none, some 5, some [8, 8, 8, 8], none⟩ ⟨none⟩ [13, 0]).2.1 [0] rfl (by decide)).1
      (fun rest h => Outcome.noConfusion h),
   (((UnmarshalBinaryData_failure_state refPrimitives (refSignature 4)
      ⟨none, some 5, some [8, 8, 8, 8], none⟩ ⟨none⟩ [13, 0, 0, 0, 0, 1, 2, 7]).2.1
      [0, 0, 0, 0, 1, 2, 7] rfl (by decide)).2 [7] rfl).2,
   ((UnmarshalBinaryData_failure_state refPrimitives (refSignature 4)
      ⟨none, some 5, some [8, 8, 8, 8], none⟩ ⟨none⟩ [1]).2.2 .signatureUnmarshal
      (by decide)).2⟩

end Factomd

/-! ## Theorems: Signature Block codec -/

namespace Factomd

namespace SignatureBlock

variable {S : Type}

/-- The marshal loop on signatures that all encode: the buffer grows by the
encodings in order. -/
theorem marshalLoop_all_ok (ops : SignatureOps S) (sigs : List S) :
    ∀ (ds : List Bytes) (out : Bytes), sigs.map ops.MarshalBinary = ds.map Outcome.ok →
      marshalLoop ops (sigs.map some) out = .ok (out ++ ds.flatten) := by
  induction sigs with
  | nil =>
    intro ds out h
    cases ds with
    | nil => simp [marshalLoop]
    | cons d ds => simp at h
  | cons s rest ih =>
    intro ds out h
    cases ds with
    | nil => simp at h
    | cons d ds =>
      simp only [List.map_cons, List.cons.injEq] at h
      simp only [List.map_cons, marshalLoop, h.1, ih ds (out ++ d) h.2, List.flatten_cons,
        List.append_assoc]

/-- The marshal loop on signatures none of which panics and one of which
returns an error: the fixed error. -/
theorem marshalLoop_some_error (ops : SignatureOps S) (sigs : List S)
    (hnp : ∀ s ∈ sigs, ops.MarshalBinary s ≠ .panicked)
    (herr : ∃ s ∈ sigs, ∃ e, ops.MarshalBinary s = .error e) :
    ∀ out : Bytes, marshalLoop ops (sigs.map some) out = .error .signatureMarshal := by
  induction sigs with
  | nil =>
    obtain ⟨s, hs, _⟩ := herr
    simp at hs
  | cons x rest ih =>
    intro out
    simp only [List.map_cons, marshalLoop]
    cases hx : ops.MarshalBinary x with
    | panicked => exact absurd hx (hnp x (List.mem_cons_self x rest))
    | error e => rfl
    | ok d =>
      simp only []
      apply ih (fun s hs => hnp s (List.mem_cons_of_mem x hs))
      obtain ⟨s, hs, e, he⟩ := herr
      rcases List.mem_cons.mp hs with h | h
      · subst h
        rw [hx] at he
        cases he
      · exact ⟨s, h, e, he⟩

/-- C16: for a Signature Block whose slice holds the signatures `sigs`
(non-nil), `MarshalBinary` returns the concatenation, in index order, of the
signatures' encodings when all of them encode, and returns the error
"Signature failed to Marshal in RCD_1", without bytes, when one of them
returns an error (none of them panicking). -/
theorem MarshalBinary_concatenates (ops : SignatureOps S) (b : SignatureBlock S)
    (sigs : List S) (hb : b.Signatures = some (sigs.map some)) :
    (∀ ds : List Bytes, sigs.map ops.MarshalBinary = ds.map Outcome.ok →
      MarshalBinary ops b = .ok ds.flatten) ∧
    ((∀ s ∈ sigs, ops.MarshalBinary s ≠ .panicked) →
      (∃ s ∈ sigs, ∃ e, ops.MarshalBinary s = .error e) →
      MarshalBinary ops b = .error .signatureMarshal) := by
  have hg : GetSignatures ops b = sigs.map some := by
    simp [GetSignatures, hb]
  constructor
  · intro ds h
    have := marshalLoop_all_ok ops sigs ds [] h
    simpa [MarshalBinary, hg] using this
  · intro hnp herr
    simpa [MarshalBinary, hg] using marshalLoop_some_error ops sigs hnp herr []

/-- Witness of C16: two signatures under the 2-byte reference codec. -/
theorem MarshalBinary_concatenates_witness :
    MarshalBinary (refSignature 2) ⟨some [some [1, 2], some [3, 4]]⟩ = .ok [1, 2, 3, 4] :=
  (MarshalBinary_concatenates (refSignature 2) ⟨some [some [1, 2], some [3, 4]]⟩
    [[1, 2], [3, 4]] rfl).1 [[1, 2], [3, 4]] rfl

/-- C17: whatever the block held before, `UnmarshalBinaryData` returns the
error "Failure to unmarshal Signature" exactly when decoding one signature
from the front of the input returns an error; when that decoding succeeds, the
call succeeds, the block holds exactly one signature, the decoded one, and the
remainder is what the signature decoder left. -/
theorem UnmarshalBinaryData_single_signature (ops : SignatureOps S) (s : SignatureBlock S)
    (data : Bytes) :
    ((UnmarshalBinaryData ops s data).2 = .error .signatureUnmarshal ↔
      ∃ e, (ops.UnmarshalBinaryData ops.fresh data).2 = .error e) ∧
    (∀ e, (UnmarshalBinaryData ops s data).2 = .error e → e = .signatureUnmarshal) ∧
    (∀ rest, (ops.UnmarshalBinaryData ops.fresh data).2 = .ok rest →
      UnmarshalBinaryData ops s data
        = (⟨some [some (ops.UnmarshalBinaryData ops.fresh data).1]⟩, .ok rest)) := by
  unfold UnmarshalBinaryData
  cases h : (ops.UnmarshalBinaryData ops.fresh data).2 with
  | ok rest => simp [h]
  | error e => simp [h]
  | panicked => simp [h]

/-- Witness of C17: a block holding two signatures decodes `[1, 2, 3]` under
the 2-byte reference codec into one signature and the remainder `[3]`. -/
theorem UnmarshalBinaryData_single_signature_witness :
    UnmarshalBinaryData (refSignature 2) ⟨some [some [9, 9], some [8, 8]]⟩ [1, 2, 3]
      = (⟨some [some [1, 2]]⟩, .ok [3]) :=
  (UnmarshalBinaryData_single_signature (refSignature 2) ⟨some [some [9, 9], some [8, 8]]⟩
    [1, 2, 3]).2.2 [3] rfl

/-- C20: for a Signature Block `b` holding exactly one signature that its codec
reads back, `MarshalBinary(b)` succeeds, and `UnmarshalBinaryData` of its
output on a new block succeeds with an empty remainder and yields a block `c`
with `c.IsSameAs(b)` and `b.IsSameAs(c)`. -/
theorem Unmarshal_Marshal_block (ops : SignatureOps S) (s : S)
    (hs : SignatureReadsBack ops s) :
    ∃ d c, MarshalBinary ops ⟨some [some s]⟩ = .ok d ∧
      UnmarshalBinaryData ops new d = (c, .ok []) ∧
      IsSameAs ops (some c) (some ⟨some [some s]⟩) = .ok true ∧
      IsSameAs ops (some ⟨some [some s]⟩) (some c) = .ok true := by
  obtain ⟨d, hd, hrest, h1, h2⟩ := hs
  refine ⟨d, ⟨some [some (ops.UnmarshalBinaryData ops.fresh d).1]⟩, ?_, ?_, ?_, ?_⟩
  · simp [MarshalBinary, GetSignatures, marshalLoop, hd]
  · simp [UnmarshalBinaryData, hrest]
  · simp [IsSameAs, GetSignatures, elems, sameLoop, h1]
  · simp [IsSameAs, GetSignatures, elems, sameLoop, h2]

/-- Witness of C20: the signature `[1, 2, 3, 4]` under the 4-byte reference
codec. -/
theorem Unmarshal_Marshal_block_witness :
    SignatureReadsBack (refSignature 4) [1, 2, 3, 4] ∧
    ∃ d c, MarshalBinary (refSignature 4) ⟨some [some [1, 2, 3, 4]]⟩ = .ok d ∧
      UnmarshalBinaryData (refSignature 4) new d = (c, .ok []) ∧
      IsSameAs (refSignature 4) (some c) (some ⟨some [some [1, 2, 3, 4]]⟩) = .ok true ∧
      IsSameAs (refSignature 4) (some ⟨some [some [1, 2, 3, 4]]⟩) (some c) = .ok true :=
  have hw : SignatureReadsBack (refSignature 4) [1, 2, 3, 4] :=
    ⟨[1, 2, 3, 4], rfl, by decide, by decide, by decide⟩
  ⟨hw, Unmarshal_Marshal_block (refSignature 4) [1, 2, 3, 4] hw⟩

end SignatureBlock

end Factomd

/-! ## Theorems: Signature-Timeout decoding never crashes -/

namespace Factomd

namespace SignatureTimeout

variable {T F : Type}

/-- `UnmarshalBinaryData` is its body under the deferred `recover`. -/
theorem UnmarshalBinaryData_eq_deferredRecover (P : Primitives T F)
    (m : SignatureTimeout T F) (data : Bytes) :
    UnmarshalBinaryData P m data = deferredRecover (unmarshalBody P m data) := by
  cases data with
  | nil => rfl
  | cons b0 tail =>
    by_cases hb : b0 = «Type» P m
    · simp only [UnmarshalBinaryData, unmarshalBody, hb, ne_eq, not_true_eq_false, if_false]
      cases h2 : (P.ts.UnmarshalBinaryData P.ts.fresh tail).2 with
      | panicked => rfl
      | error e => rfl
      | ok rest =>
        simp only [unmarshalSignature]
        by_cases hlen : rest.length > 0
        · simp only [hlen, if_true]
          cases h3 : (P.sig.UnmarshalBinaryData P.sig.fresh rest).2 <;> rfl
        · simp only [hlen, if_false]
          rfl
    · simp only [UnmarshalBinaryData, unmarshalBody, ne_eq, hb, not_false_eq_true, if_true]
      rfl

/-- C11: `UnmarshalBinaryData` and `UnmarshalBinary` return an error on the
empty (or nil) input, leaving the receiver alone; and on every input the
result is that of the body under the deferred `recover`, so that whenever the
body panics (an index out of range, a panicking sub-decoder) the call returns
the error "Error unmarshalling" instead of crashing. -/
theorem UnmarshalBinaryData_recovers (P : Primitives T F) (m : SignatureTimeout T F)
    (data : Bytes) :
    UnmarshalBinaryData P m [] = ⟨m, [], some .recovered⟩ ∧
    UnmarshalBinary P m [] = (m, some .recovered) ∧
    UnmarshalBinaryData P m data = deferredRecover (unmarshalBody P m data) ∧
    ((unmarshalBody P m data).panicking = true →
      (UnmarshalBinaryData P m data).err = some .recovered ∧
      (UnmarshalBinary P m data).2 = some .recovered) := by
  refine ⟨rfl, rfl, UnmarshalBinaryData_eq_deferredRecover P m data, ?_⟩
  intro hp
  simp [UnmarshalBinary, UnmarshalBinaryData_eq_deferredRecover, deferredRecover, hp]

/-- Witness of C11: on the empty input the body panics at `newData[0]` and the
call returns the recovered error. -/
theorem UnmarshalBinaryData_recovers_witness :
    (unmarshalBody refPrimitives (new : SignatureTimeout Nat Bytes) []).panicking = true ∧
    (UnmarshalBinaryData refPrimitives (new : SignatureTimeout Nat Bytes) []).err
      = some .recovered :=
  ⟨rfl, ((UnmarshalBinaryData_recovers refPrimitives new []).2.2.2 rfl).1⟩

end SignatureTimeout

end Factomd

/-! ## Theorems: Signature-Timeout hashes -/

namespace Factomd

namespace SignatureTimeout

variable {T F : Type}

/-- A cached `MsgHash` is what `GetMsgHash` returns; nothing else is read. -/
theorem GetMsgHash_cached (P : Primitives T F) (m : SignatureTimeout T F) (h : Bytes)
    (hm : m.MsgHash = some h) : GetMsgHash P m = (m, .ok (some h)) := by
  simp [GetMsgHash, hm]

/-- A cached `hash` is what `GetHash` returns; nothing else is read. -/
theorem GetHash_cached (P : Primitives T F) (m : SignatureTimeout T F) (h : Bytes)
    (hm : m.hash = some h) : GetHash P m = (m, .ok (some h)) := by
  simp [GetHash, hm]

/-- A digest returned by `GetMsgHash` is cached in `MsgHash`. -/
theorem GetMsgHash_caches (P : Primitives T F) (m : SignatureTimeout T F) (h : Bytes)
    (hm : (GetMsgHash P m).2 = .ok (some h)) : (GetMsgHash P m).1.MsgHash = some h := by
  unfold GetMsgHash at hm ⊢
  cases hc : m.MsgHash with
  | some c =>
    simp only [hc, Outcome.ok.injEq] at hm ⊢
    rw [← hm]
  | none =>
    cases hb : MarshalBinary P m with
    | ok d => simpa [hc, hb] using hm
    | error e => simp [hc, hb] at hm
    | panicked => simp [hc, hb] at hm

/-- What `GetHash` returns when it returns is cached in `hash`. -/
theorem GetHash_caches (P : Primitives T F) (m : SignatureTimeout T F) (h : Option Bytes)
    (hm : (GetHash P m).2 = .ok h) : ∃ c, h = some c ∧ (GetHash P m).1.hash = some c := by
  unfold GetHash at hm ⊢
  cases hc : m.hash with
  | some c =>
    simp only [hc, Outcome.ok.injEq] at hm ⊢
    exact ⟨c, hm.symm, rfl⟩
  | none =>
    cases hb : MarshalForSignature P m with
    | ok d =>
      simp only [hc, hb, Outcome.ok.injEq] at hm ⊢
      exact ⟨P.Sha d, hm.symm, rfl⟩
    | error e => simp [hc, hb] at hm
    | panicked => simp [hc, hb] at hm

/-- `Sign` does not touch the cached `MsgHash`. -/
theorem Sign_MsgHash {K : Type} (signSignable : SignatureTimeout T F → K → Outcome (Option F))
    (m : SignatureTimeout T F) (key : K) : (Sign signSignable m key).1.MsgHash = m.MsgHash := by
  unfold Sign
  cases signSignable m key <;> rfl

/-- C12, as stated, fails.  Under the reference codecs (digest = identity): an
unsigned message with timestamp 258 gets its message hash computed, is then
signed with key 7, and `GetMsgHash` still returns the digest of the unsigned
encoding, which is not the digest of the current `MarshalBinary` output. -/
theorem GetMsgHash_stale_after_Sign :
    (GetMsgHash refPrimitives
      (Sign refSignSignable (GetMsgHash refPrimitives ⟨none, some 258, none, none⟩).1 7).1).2
      = .ok (some (refPrimitives.Sha [13, 0, 0, 0, 0, 1, 2])) ∧
    MarshalBinary refPrimitives
      (Sign refSignSignable (GetMsgHash refPrimitives ⟨none, some 258, none, none⟩).1 7).1
      = .ok [13, 0, 0, 0, 0, 1, 2, 0, 0, 1, 9] ∧
    refPrimitives.Sha [13, 0, 0, 0, 0, 1, 2, 0, 0, 1, 9]
      ≠ refPrimitives.Sha [13, 0, 0, 0, 0, 1, 2] := by
  refine ⟨?_, ?_, ?_⟩ <;> decide

/-- C12, amended: on a message without cached `MsgHash` whose `MarshalBinary`
succeeds, `GetMsgHash` returns the digest of that full `MarshalBinary` output
and caches it; on a message with a cached `MsgHash` it returns the cached
digest; `GetRepeatHash` is `GetMsgHash`; and `Sign` leaves the cache as it is,
so a `GetMsgHash` after `Sign` returns the digest an earlier `GetMsgHash`
returned. -/
theorem GetMsgHash_memoized {K : Type} (P : Primitives T F)
    (signSignable : SignatureTimeout T F → K → Outcome (Option F))
    (m : SignatureTimeout T F) (key : K) :
    (∀ d, m.MsgHash = none → MarshalBinary P m = .ok d →
      GetMsgHash P m = ({ m with MsgHash := some (P.Sha d) }, .ok (some (P.Sha d)))) ∧
    (∀ h, m.MsgHash = some h → GetMsgHash P m = (m, .ok (some h))) ∧
    GetRepeatHash P m = GetMsgHash P m ∧
    (∀ h, (GetMsgHash P m).2 = .ok (some h) →
      (GetMsgHash P (Sign signSignable (GetMsgHash P m).1 key).1).2 = .ok (some h)) := by
  refine ⟨?_, ?_, rfl, ?_⟩
  · intro d hm hd
    simp [GetMsgHash, hm, hd]
  · intro h hm
    exact GetMsgHash_cached P m h hm
  · intro h hm
    have hc := GetMsgHash_caches P m h hm
    have hs := Sign_MsgHash signSignable (GetMsgHash P m).1 key
    rw [GetMsgHash_cached P _ h (hs.trans hc)]

/-- Witness of C12 amended: first call on an unsigned message, then `Sign`,
then a second call. -/
theorem GetMsgHash_memoized_witness :
    GetMsgHash refPrimitives ⟨none, some 258, none, none⟩
      = (⟨some [13, 0, 0, 0, 0, 1, 2], some 258, none, none⟩,
          .ok (some [13, 0, 0, 0, 0, 1, 2])) ∧
    (GetMsgHash refPrimitives
      (Sign refSignSignable (GetMsgHash refPrimitives ⟨none, some 258, none, none⟩).1 7).1).2
      = .ok (some [13, 0, 0, 0, 0, 1, 2]) :=
  ⟨(GetMsgHash_memoized refPrimitives refSignSignable ⟨none, some 258, none, none⟩ 7).1
      [13, 0, 0, 0, 0, 1, 2] rfl (by decide),
   (GetMsgHash_memoized refPrimitives refSignSignable ⟨none, some 258, none, none⟩ 7).2.2.2
      [13, 0, 0, 0, 0, 1, 2] (by decide)⟩

/-- C13: for a `SignatureTimeout` without cached hash whose timestamp encodes
to `d`, `GetHash` returns the digest of the `MarshalForSignature` output (tag
followed by `d`); hence any other message without cached hash whose timestamp
has the same encoding has the same `GetHash`, whatever signatures the two
carry. -/
theorem GetHash_ignores_signature (P : Primitives T F) (m : SignatureTimeout T F) (t : T)
    (d : Bytes) (hh : m.hash = none) (ht : m.Timestamp = some t)
    (hd : P.ts.MarshalBinary t = .ok d) :
    MarshalForSignature P m = .ok (P.SIGNATURE_TIMEOUT_MSG :: d) ∧
    (GetHash P m).2 = .ok (some (P.Sha (P.SIGNATURE_TIMEOUT_MSG :: d))) ∧
    (∀ (m2 : SignatureTimeout T F) (t2 : T), m2.hash = none → m2.Timestamp = some t2 →
      P.ts.MarshalBinary t2 = .ok d → (GetHash P m2).2 = (GetHash P m).2) := by
  have h1 := MarshalForSignature_eq P m t d ht hd
  have h2 : (GetHash P m).2 = .ok (some (P.Sha (P.SIGNATURE_TIMEOUT_MSG :: d))) := by
    simp [GetHash, hh, h1, «Type»]
  refine ⟨h1, h2, ?_⟩
  intro m2 t2 hh2 ht2 hd2
  have h3 := MarshalForSignature_eq P m2 t2 d ht2 hd2
  rw [h2]
  simp [GetHash, hh2, h3, «Type»]

/-- Witness of C13: an unsigned and a signed message with timestamp 258 have
the same `GetHash`. -/
theorem GetHash_ignores_signature_witness :
    (GetHash refPrimitives ⟨none, some 258, some [1, 2, 3, 4], none⟩).2
      = (GetHash refPrimitives ⟨none, some 258, none, none⟩).2 :=
  (GetHash_ignores_signature refPrimitives ⟨none, some 258, none, none⟩ 258
    [0, 0, 0, 0, 1, 2] rfl rfl rfl).2.2 ⟨none, some 258, some [1, 2, 3, 4], none⟩ 258
    rfl rfl rfl

/-- C14: on a message without cached digest whose encoding succeeds, `GetHash`
(resp. `GetMsgHash`) returns the digest of `MarshalForSignature` (resp.
`MarshalBinary`) and stores it in `hash` (resp. `MsgHash`); on a message with
a cached digest it returns that digest and reads nothing else.  Hence calling
`GetHash` twice, or `GetMsgHash` twice, on the same message returns the same
result, and once a call has returned a digest, that digest is what every later
call returns, whatever the timestamp and the signature of the message then
are. -/
theorem hashes_memoized (P : Primitives T F) (m : SignatureTimeout T F) :
    (∀ d, m.hash = none → MarshalForSignature P m = .ok d →
      GetHash P m = ({ m with hash := some (P.Sha d) }, .ok (some (P.Sha d)))) ∧
    (∀ d, m.MsgHash = none → MarshalBinary P m = .ok d →
      GetMsgHash P m = ({ m with MsgHash := some (P.Sha d) }, .ok (some (P.Sha d)))) ∧
    (∀ h, m.hash = some h → GetHash P m = (m, .ok (some h))) ∧
    (∀ h, m.MsgHash = some h → GetMsgHash P m = (m, .ok (some h))) ∧
    (∀ (d : Bytes) (m2 : SignatureTimeout T F), m.hash = none →
      MarshalForSignature P m = .ok d → m2.hash = (GetHash P m).1.hash →
      GetHash P m2 = (m2, .ok (some (P.Sha d)))) ∧
    (∀ (d : Bytes) (m2 : SignatureTimeout T F), m.MsgHash = none →
      MarshalBinary P m = .ok d → m2.MsgHash = (GetMsgHash P m).1.MsgHash →
      GetMsgHash P m2 = (m2, .ok (some (P.Sha d)))) ∧
    (GetHash P (GetHash P m).1).2 = (GetHash P m).2 ∧
    (GetMsgHash P (GetMsgHash P m).1).2 = (GetMsgHash P m).2 ∧
    (∀ (h : Bytes) (m2 : SignatureTimeout T F), (GetHash P m).2 = .ok (some h) →
      m2.hash = (GetHash P m).1.hash → GetHash P m2 = (m2, .ok (some h))) ∧
    (∀ (h : Bytes) (m2 : SignatureTimeout T F), (GetMsgHash P m).2 = .ok (some h) →
      m2.MsgHash = (GetMsgHash P m).1.MsgHash → GetMsgHash P m2 = (m2, .ok (some h))) := by
  have hG : ∀ d, m.hash = none → MarshalForSignature P m = .ok d →
      GetHash P m = ({ m with hash := some (P.Sha d) }, .ok (some (P.Sha d))) := by
    intro d hm hd
    simp [GetHash, hm, hd]
  have hM : ∀ d, m.MsgHash = none → MarshalBinary P m = .ok d →
      GetMsgHash P m = ({ m with MsgHash := some (P.Sha d) }, .ok (some (P.Sha d))) := by
    intro d hm hd
    simp [GetMsgHash, hm, hd]
  refine ⟨hG, hM, fun h hm => GetHash_cached P m h hm, fun h hm => GetMsgHash_cached P m h hm,
    ?_, ?_, ?_, ?_, ?_, ?_⟩
  · intro d m2 hm hd hm2
    rw [hG d hm hd] at hm2
    exact GetHash_cached P m2 (P.Sha d) hm2
  · intro d m2 hm hd hm2
    rw [hM d hm hd] at hm2
    exact GetMsgHash_cached P m2 (P.Sha d) hm2
  · cases hr : (GetHash P m).2 with
    | ok h =>
      obtain ⟨c, rfl, hc⟩ := GetHash_caches P m h hr
      rw [GetHash_cached P _ c hc]
    | error e =>
      unfold GetHash at hr
      cases hc : m.hash with
      | some c => simp [hc] at hr
      | none => cases hb : MarshalForSignature P m <;> simp [hc, hb] at hr
    | panicked =>
      have hm : (GetHash P m).1 = m := by
        unfold GetHash at hr ⊢
        cases hc : m.hash with
        | some c => simp [hc] at hr
        | none => cases hb : MarshalForSignature P m <;> simp [hc, hb] at hr ⊢
      rw [hm, hr]
  · cases hr : (GetMsgHash P m).2 with
    | ok h =>
      cases h with
      | some c => rw [GetMsgHash_cached P _ c (GetMsgHash_caches P m c hr)]
      | none =>
        have hm : (GetMsgHash P m).1 = m := by
          unfold GetMsgHash at hr ⊢
          cases hc : m.MsgHash with
          | some c => simp [hc] at hr
          | none => cases hb : MarshalBinary P m <;> simp [hc, hb] at hr ⊢
        rw [hm, hr]
    | error e =>
      unfold GetMsgHash at hr
      cases hc : m.MsgHash with
      | some c => simp [hc] at hr
      | none => cases hb : MarshalBinary P m <;> simp [hc, hb] at hr
    | panicked =>
      have hm : (GetMsgHash P m).1 = m := by
        unfold GetMsgHash at hr ⊢
        cases hc : m.MsgHash with
        | some c => simp [hc] at hr
        | none => cases hb : MarshalBinary P m <;> simp [hc, hb] at hr ⊢
      rw [hm, hr]
  · intro h m2 hr hm2
    obtain ⟨c, hc1, hc2⟩ := GetHash_caches P m (some h) hr
    cases hc1
    exact GetHash_cached P m2 h (hm2.trans hc2)
  · intro h m2 hr hm2
    exact GetMsgHash_cached P m2 h (hm2.trans (GetMsgHash_caches P m h hr))

/-- Witness of C14: `GetHash` on an uncached message with timestamp 258 returns
the digest of its `MarshalForSignature` output and caches it; a message with
that cache but timestamp 999 and a signature returns the same digest; and so
does `GetMsgHash` with its own cache. -/
theorem hashes_memoized_witness :
    GetHash refPrimitives ⟨none, some 258, none, none⟩
      = (⟨none, some 258, none, some [13, 0, 0, 0, 0, 1, 2]⟩,
          .ok (some [13, 0, 0, 0, 0, 1, 2])) ∧
    GetHash refPrimitives ⟨none, some 999, some [1, 2, 3, 4], some [13, 0, 0, 0, 0, 1, 2]⟩
      = (⟨none, some 999, some [1, 2, 3, 4], some [13, 0, 0, 0, 0, 1, 2]⟩,
          .ok (some [13, 0, 0, 0, 0, 1, 2])) ∧
    GetMsgHash refPrimitives ⟨none, some 258, some [1, 2, 3, 4], none⟩
      = (⟨some [13, 0, 0, 0, 0, 1, 2, 1, 2, 3, 4], some 258, some [1, 2, 3, 4], none⟩,
          .ok (some [13, 0, 0, 0, 0, 1, 2, 1, 2, 3, 4])) ∧
    GetMsgHash refPrimitives ⟨some [13, 0, 0, 0, 0, 1, 2, 1, 2, 3, 4], some 999, none, none⟩
      = (⟨some [13, 0, 0, 0, 0, 1, 2, 1, 2, 3, 4], some 999, none, none⟩,
          .ok (some [13, 0, 0, 0, 0, 1, 2, 1, 2, 3, 4])) :=
  ⟨(hashes_memoized refPrimitives ⟨none, some 258, none, none⟩).1
      [13, 0, 0, 0, 0, 1, 2] rfl (by decide),
   (hashes_memoized refPrimitives ⟨none, some 258, none, none⟩).2.2.2.2.1
      [13, 0, 0, 0, 0, 1, 2]
      ⟨none, some 999, some [1, 2, 3, 4], some [13, 0, 0, 0, 0, 1, 2]⟩ rfl (by decide)
      (by decide),
   (hashes_memoized refPrimitives ⟨none, some 258, some [1, 2, 3, 4], none⟩).2.1
      [13, 0, 0, 0, 0, 1, 2, 1, 2, 3, 4] rfl (by decide),
   (hashes_memoized refPrimitives ⟨none, some 258, some [1, 2, 3, 4], none⟩).2.2.2.2.2.1
      [13, 0, 0, 0, 0, 1, 2, 1, 2, 3, 4]
      ⟨some [13, 0, 0, 0, 0, 1, 2, 1, 2, 3, 4], some 999, none, none⟩ rfl (by decide)
      (by decide)⟩

end SignatureTimeout

end Factomd

/-! ## Theorems: Signature-Timeout validation and execution -/

namespace Factomd

namespace SignatureTimeout

variable {T F : Type}

/-- C15, as stated, fails: a well-formed message, signed through `Sign`, is
validated to 0, not 1. -/
theorem Validate_signed_message_is_zero :
    Sign refSignSignable ⟨none, some 258, none, none⟩ 7
      = (⟨none, some 258, some [0, 0, 1, 9], none⟩, .ok none) ∧
    WellFormed refPrimitives ⟨none, some 258, some [0, 0, 1, 9], none⟩ ∧
    Validate (⟨none, some 258, some [0, 0, 1, 9], none⟩ : SignatureTimeout Nat Bytes) () = 0 ∧
    Validate (⟨none, some 258, some [0, 0, 1, 9], none⟩ : SignatureTimeout Nat Bytes) () ≠ 1 :=
  ⟨by decide,
   refPrimitives_wellFormed _ 258 rfl (by norm_num) (fun s h => by cases h; rfl),
   rfl, by decide⟩

/-- C15, amended: for every `SignatureTimeout`, signed and valid or not, and
every state, `Validate(state)` returns 0 (cannot tell whether the message is
valid); it never returns 1 or -1. -/
theorem Validate_always_zero {St : Type} (m : SignatureTimeout T F) (state : St) :
    Validate m state = 0 ∧ Validate m state ≠ 1 ∧ Validate m state ≠ -1 := by
  refine ⟨rfl, ?_, ?_⟩ <;> simp [Validate]

/-- C18: for every `SignatureTimeout` and every state, `LeaderExecute`,
`FollowerExecute` and `ComputeVMIndex` leave the message and the state as they
were, and `Process` returns true and leaves both as they were. -/
theorem execution_is_noop {St : Type} (m : SignatureTimeout T F) (state : St)
    (dbheight : Nat) :
    LeaderExecute m state = (m, state) ∧
    FollowerExecute m state = (m, state) ∧
    ComputeVMIndex m state = (m, state) ∧
    Process m dbheight state = ((m, state), true) :=
  ⟨rfl, rfl, rfl, rfl⟩

end SignatureTimeout

end Factomd

/-! ## Theorems: Directory Block Header -/

namespace Factomd

namespace DBlockHeader

/-- The zero digest passes the zero-value check. -/
theorem IsZero_zeroDigest : IsZero zeroDigest = true := by
  simp [IsZero]

/-- C19: after `Init()` on a newly constructed Directory Block Header (and on
any other header), `GetBodyMR`, `GetPrevKeyMR` and `GetPrevFullHash` each
return a digest for which `IsZero` is true. -/
theorem Init_digests_zero (h : DBlockHeader) :
    (GetBodyMR (Init new)).map IsZero = some true ∧
    (GetPrevKeyMR (Init new)).map IsZero = some true ∧
    (GetPrevFullHash (Init new)).map IsZero = some true ∧
    (GetBodyMR (Init h)).map IsZero = some true ∧
    (GetPrevKeyMR (Init h)).map IsZero = some true ∧
    (GetPrevFullHash (Init h)).map IsZero = some true := by
  simp [GetBodyMR, GetPrevKeyMR, GetPrevFullHash, Init, IsZero_zeroDigest]

end DBlockHeader

end Factomd

/-! ## Theorems: what a successful decode depends on -/

namespace Factomd

namespace SignatureTimeout

variable {T F : Type}

/-- The decoder reads only the `Signature` of the message it is handed after
the timestamp: the remainder and the error do not depend on the message, and
the resulting `Signature` depends on it only when no byte is left. -/
theorem unmarshalSignature_receiver (P : Primitives T F) (m1 m2 : SignatureTimeout T F)
    (newData : Bytes) :
    (unmarshalSignature P m2 newData).err = (unmarshalSignature P m1 newData).err ∧
    (unmarshalSignature P m2 newData).newData = (unmarshalSignature P m1 newData).newData ∧
    ((unmarshalSignature P m1 newData).receiver.Timestamp = m1.Timestamp) ∧
    (newData ≠ [] →
      (unmarshalSignature P m2 newData).receiver.Signature
        = (unmarshalSignature P m1 newData).receiver.Signature) ∧
    (newData = [] → (unmarshalSignature P m1 newData).receiver.Signature = m1.Signature) := by
  unfold unmarshalSignature
  by_cases hlen : newData.length > 0
  · have hne : newData ≠ [] := by
      intro h
      rw [h] at hlen
      exact absurd hlen (by decide)
    simp only [hlen, if_true]
    cases h3 : (P.sig.UnmarshalBinaryData P.sig.fresh newData).2 <;> simp [hne]
  · have he : newData = [] := by
      cases newData with
      | nil => rfl
      | cons a as => simp at hlen
    simp [he]

/-- C21, as stated, fails.  Under the reference codecs the 7 bytes of an
unsigned message with timestamp 258 decode successfully both into a receiver
that already holds the signature `[9, 9, 9, 9]` and into a fresh one; the
first still holds `[9, 9, 9, 9]` afterwards, the second holds none. -/
theorem UnmarshalBinaryData_keeps_prior_signature :
    UnmarshalBinaryData refPrimitives ⟨none, none, some [9, 9, 9, 9], none⟩
        [13, 0, 0, 0, 0, 1, 2]
      = ⟨⟨none, some 258, some [9, 9, 9, 9], none⟩, [], none⟩ ∧
    UnmarshalBinaryData refPrimitives new [13, 0, 0, 0, 0, 1, 2]
      = ⟨⟨none, some 258, none, none⟩, [], none⟩ ∧
    (UnmarshalBinaryData refPrimitives ⟨none, none, some [9, 9, 9, 9], none⟩
        [13, 0, 0, 0, 0, 1, 2]).receiver.Signature
      ≠ (UnmarshalBinaryData refPrimitives new [13, 0, 0, 0, 0, 1, 2]).receiver.Signature := by
  refine ⟨?_, ?_, ?_⟩ <;> decide

/-- C21, amended: whether `UnmarshalBinaryData(data)` succeeds, and the
remainder it returns, do not depend on the receiver; after a successful call
the `Timestamp` is determined by `data` alone; the `Signature` is the same for
any two receivers that held the same `Signature` before the call (none, for
receivers that held none and bytes that carry none), and for any two receivers
whatsoever when bytes are left after the timestamp. -/
theorem UnmarshalBinaryData_determined_by_data (P : Primitives T F)
    (m1 m2 : SignatureTimeout T F) (data : Bytes)
    (h1 : (UnmarshalBinaryData P m1 data).err = none) :
    (UnmarshalBinaryData P m2 data).err = none ∧
    (UnmarshalBinaryData P m2 data).newData = (UnmarshalBinaryData P m1 data).newData ∧
    (UnmarshalBinaryData P m2 data).receiver.Timestamp
      = (UnmarshalBinaryData P m1 data).receiver.Timestamp ∧
    (m1.Signature = m2.Signature →
      (UnmarshalBinaryData P m2 data).receiver.Signature
        = (UnmarshalBinaryData P m1 data).receiver.Signature) ∧
    (∀ b0 tail rest, data = b0 :: tail →
      (P.ts.UnmarshalBinaryData P.ts.fresh tail).2 = .ok rest → rest ≠ [] →
      (UnmarshalBinaryData P m2 data).receiver.Signature
        = (UnmarshalBinaryData P m1 data).receiver.Signature) ∧
    (∀ b0 tail, data = b0 :: tail →
      (P.ts.UnmarshalBinaryData P.ts.fresh tail).2 = .ok [] → m1.Signature = none →
      (UnmarshalBinaryData P m1 data).receiver.Signature = none) := by
  cases data with
  | nil => simp [UnmarshalBinaryData] at h1
  | cons b0 tail =>
    by_cases hb : b0 = P.SIGNATURE_TIMEOUT_MSG
    · subst hb
      simp only [UnmarshalBinaryData, «Type», ne_eq, not_true_eq_false, if_false] at h1 ⊢
      cases h2 : (P.ts.UnmarshalBinaryData P.ts.fresh tail).2 with
      | panicked => simp [h2] at h1
      | error e => simp [h2] at h1
      | ok rest =>
        simp only [h2] at h1 ⊢
        obtain ⟨he, hn, ht1, hs, hk⟩ := unmarshalSignature_receiver P
          { m1 with Timestamp := some (P.ts.UnmarshalBinaryData P.ts.fresh tail).1 }
          { m2 with Timestamp := some (P.ts.UnmarshalBinaryData P.ts.fresh tail).1 } rest
        obtain ⟨_, _, ht2, _, hk2⟩ := unmarshalSignature_receiver P
          { m2 with Timestamp := some (P.ts.UnmarshalBinaryData P.ts.fresh tail).1 }
          { m1 with Timestamp := some (P.ts.UnmarshalBinaryData P.ts.fresh tail).1 } rest
        refine ⟨he.trans h1, hn, ht2.trans ht1.symm, ?_, ?_, ?_⟩
        · intro hsig
          by_cases hr : rest = []
          · rw [hk hr, hk2 hr]
            exact hsig.symm
          · exact hs hr
        · intro b1 tail1 rest1 hd hts hne
          simp only [List.cons.injEq] at hd
          obtain ⟨_, rfl⟩ := hd
          rw [h2] at hts
          cases hts
          exact hs hne
        · intro b1 tail1 hd hts hnone
          simp only [List.cons.injEq] at hd
          obtain ⟨_, rfl⟩ := hd
          rw [h2] at hts
          cases hts
          rw [hk rfl]
          exact hnone
    · simp [UnmarshalBinaryData, «Type», hb] at h1

/-- Witness of C21 amended: a signed encoding decoded into a receiver that
held another timestamp, signature and cached hashes, and into a fresh one. -/
theorem UnmarshalBinaryData_determined_by_data_witness :
    (UnmarshalBinaryData refPrimitives new [13, 0, 0, 0, 0, 1, 2, 1, 2, 3, 4]).err = none ∧
    (UnmarshalBinaryData refPrimitives ⟨some [5], some 77, some [9, 9, 9, 9], some [6]⟩
        [13, 0, 0, 0, 0, 1, 2, 1, 2, 3, 4]).receiver.Timestamp
      = (UnmarshalBinaryData refPrimitives new
          [13, 0, 0, 0, 0, 1, 2, 1, 2, 3, 4]).receiver.Timestamp ∧
    (UnmarshalBinaryData refPrimitives ⟨some [5], some 77, some [9, 9, 9, 9], some [6]⟩
        [13, 0, 0, 0, 0, 1, 2, 1, 2, 3, 4]).receiver.Signature
      = (UnmarshalBinaryData refPrimitives new
          [13, 0, 0, 0, 0, 1, 2, 1, 2, 3, 4]).receiver.Signature :=
  ⟨by decide,
   (UnmarshalBinaryData_determined_by_data refPrimitives new
      ⟨some [5], some 77, some [9, 9, 9, 9], some [6]⟩
      [13, 0, 0, 0, 0, 1, 2, 1, 2, 3, 4] (by decide)).2.2.1,
   (UnmarshalBinaryData_determined_by_data refPrimitives new
      ⟨some [5], some 77, some [9, 9, 9, 9], some [6]⟩
      [13, 0, 0, 0, 0, 1, 2, 1, 2, 3, 4] (by decide)).2.2.2.2.1
      13 [0, 0, 0, 0, 1, 2, 1, 2, 3, 4] [1, 2, 3, 4] rfl (by decide) (by decide)⟩

end SignatureTimeout

end Factomd
